import Mathlib

/-!
# Verification of the mcap2hdf5 fusion-and-storage engine

A shallow embedding, in Lean 4, of the core components of the `mcap2hdf5`
pipeline, together with proofs about them:

* the binary point-cloud decoder (`MessageConverter.lidarToNumpy` from
  `mcap2hdf5/message_converter.py`),
* the time-synchronization engine and transform cache
  (`SensorDataSynchronizer` from `mcap2hdf5/synchronizer.py`),
* the growable dataset writer (`HDF5Writer` from `pipeline/hdf5_writer.py`),
* the rigid-transform interpolation numerics
  (`MessageConverter.interpolateMatrix`), modelled over the real numbers.

Modelling conventions:
* Python floats (timestamps, thresholds) are modelled as rationals `ℚ` where
  only ordered-field arithmetic is exercised, and as reals `ℝ` for the
  rotation numerics (square roots);
* numpy / h5py / scipy behaviour that the code relies on (little-endian byte
  reinterpretation, dataset resizing with zero fill, quaternion conversion)
  is embedded explicitly and documented at each definition;
* stateful methods become pure functions from state to state (together with
  the list of generated values where the Python method is a generator).
-/

namespace Mcap2Hdf5

/-! ## Association lists

Python `dict`s with string keys are modelled as association lists in key
insertion order. -/

/-- Lookup in a `dict` modelled as an association list. -/
def assocGet {β : Type _} (l : List (String × β)) (k : String) : Option β :=
  (l.find? fun p => p.1 == k).map (·.2)

/-- Assignment `d[k] = v` into a `dict` modelled as an association list: the
value of an existing key is replaced in place, a new key is appended at the
end (Python `dict`s preserve key insertion order). -/
def assocSet {β : Type _} (l : List (String × β)) (k : String) (v : β) :
    List (String × β) :=
  match l with
  | [] => [(k, v)]
  | p :: t => if p.1 == k then (k, v) :: t else p :: assocSet t k v

/-! ## Binary point-cloud decoder

Embedding of `MessageConverter.lidarToNumpy` from
`mcap2hdf5/message_converter.py`. A byte is a `Fin 256`; the numeric value a
field decodes to is modelled as a rational (the float32 cast the code performs
on every extracted value is idealized as exact). -/

/-- One byte of a binary payload. -/
abbrev Byte := Fin 256

/-- One `sensor_msgs/PointField` descriptor, as read by `lidarToNumpy`. -/
structure PointField where
  name : String
  offset : Nat
  datatype : Nat
deriving DecidableEq

/-- The parts of a `sensor_msgs/PointCloud2` message that `lidarToNumpy`
reads: the field descriptors, the raw byte payload, and the stride. -/
structure PointCloud2 where
  fields : List PointField
  data : List Byte
  point_step : Nat

/-- Item size in bytes of each `POINTFIELD_DATATYPE_MAP` entry
(1=int8, 2=uint8, 3=int16, 4=uint16, 5=int32, 6=uint32, 7=float32,
8=float64); `none` for a code outside the map (Python raises `KeyError`). -/
def dtypeItemsize : Nat → Option Nat
  | 1 => some 1
  | 2 => some 1
  | 3 => some 2
  | 4 => some 2
  | 5 => some 4
  | 6 => some 4
  | 7 => some 4
  | 8 => some 8
  | _ => none

/-- Little-endian unsigned integer value of a byte list (numpy stores the
supported scalar types in native little-endian order). -/
def leValue : List Byte → Nat
  | [] => 0
  | b :: rest => b.val + 256 * leValue rest

/-- Two's-complement reinterpretation of the `k`-byte little-endian value
`u` as a signed integer. -/
def twosComplement (k : Nat) (u : Nat) : ℤ :=
  if u < 2 ^ (8 * k - 1) then (u : ℤ) else (u : ℤ) - 2 ^ (8 * k)

/-- Modelled from the spec: "reinterpret the sliced bytes according to the
field's scalar type" for the IEEE-754 floating formats, which numpy's
`frombuffer` performs.  `ebits`/`mbits`/`bias` are the exponent width,
mantissa width and exponent bias; finite values (normal and subnormal) map to
their exact rational value, the non-finite encodings (exponent all ones) are
idealized to `0`. -/
def ieeeValue (ebits mbits bias : Nat) (u : Nat) : ℚ :=
  let frac : ℚ := ((u % 2 ^ mbits : Nat) : ℚ)
  let expo : Nat := u / 2 ^ mbits % 2 ^ ebits
  let sign : ℚ := if u / 2 ^ (mbits + ebits) % 2 = 1 then -1 else 1
  if expo = 0 then sign * frac * (2 : ℚ) ^ (1 - (bias : ℤ) - (mbits : ℤ))
  else if expo = 2 ^ ebits - 1 then 0
  else sign * (2 ^ mbits + frac) * (2 : ℚ) ^ ((expo : ℤ) - (bias : ℤ) - (mbits : ℤ))

/-- Numeric value of the byte slice of one field, according to its declared
scalar type (the `np.frombuffer` reinterpretation followed by the exact cast
to the result's float32 column). -/
def decodeScalar (datatype : Nat) (bytes : List Byte) : ℚ :=
  match datatype with
  | 1 => ((twosComplement 1 (leValue bytes) : ℤ) : ℚ)
  | 2 => ((leValue bytes : Nat) : ℚ)
  | 3 => ((twosComplement 2 (leValue bytes) : ℤ) : ℚ)
  | 4 => ((leValue bytes : Nat) : ℚ)
  | 5 => ((twosComplement 4 (leValue bytes) : ℤ) : ℚ)
  | 6 => ((leValue bytes : Nat) : ℚ)
  | 7 => ieeeValue 8 23 127 (leValue bytes)
  | 8 => ieeeValue 11 52 1023 (leValue bytes)
  | _ => 0

/-- `fieldMap = {field.name: field for field in lidarMsg.fields}`: a Python
dict comprehension, so a later duplicate name overrides an earlier one. -/
def fieldMapFind (fields : List PointField) (n : String) : Option PointField :=
  fields.reverse.find? fun f => f.name == n

/-- `pointByteBuffer.reshape(-1, point_step)`: split the flat payload into
rows of `stride` bytes each. -/
def chunkRows (stride : Nat) (l : List Byte) : List (List Byte) :=
  if h : stride = 0 ∨ l = [] then []
  else
    l.take stride :: chunkRows stride (l.drop stride)
termination_by l.length
decreasing_by
  push_neg at h
  simp only [List.length_drop]
  have h1 : 0 < stride := Nat.pos_of_ne_zero h.1
  have h2 : 0 < l.length := List.length_pos.mpr h.2
  omega

/-- Shallow embedding of `MessageConverter.lidarToNumpy`.  Mirrors the Python
control flow: check every requested field name against the field map (raising
`ValueError` on the first missing one), reshape the payload into fixed-stride
rows (numpy raises if the payload length is not a multiple of the stride),
then for each requested field in order slice out its byte range from every
row and reinterpret it according to its declared scalar type (`KeyError` for
an unmapped type code; numpy raises a broadcast error when a field's declared
range does not fit inside the stride and there is at least one row).  The
columns are finally assembled into the row-major `N × F` result matrix. -/
def lidarToNumpy (msg : PointCloud2)
    (fieldNames : List String := ["x", "y", "z", "intensity"]) :
    Except String (List (List ℚ)) := do
  match fieldNames.find? (fun n => (fieldMapFind msg.fields n).isNone) with
  | some n => throw ("PointCloud2 missing field: " ++ n)
  | none =>
    if msg.point_step = 0 ∨ msg.data.length % msg.point_step ≠ 0 then
      throw "ValueError: cannot reshape array"
    else
      let cols ← fieldNames.mapM fun n =>
        match fieldMapFind msg.fields n with
        | none => throw "unreachable: field presence already checked"
        | some f =>
          match dtypeItemsize f.datatype with
          | none => throw "KeyError: unsupported PointField datatype"
          | some size =>
            if f.offset + size > msg.point_step ∧
                (chunkRows msg.point_step msg.data).length ≠ 0 then
              throw "ValueError: could not broadcast input array"
            else
              pure ((chunkRows msg.point_step msg.data).map fun r =>
                decodeScalar f.datatype ((r.drop f.offset).take size))
      pure ((List.range (chunkRows msg.point_step msg.data).length).map fun i =>
        cols.map fun c => c.getD i 0)

/-- The successfully decoded column of one requested field: the value
`lidarToNumpy` computes for that field from every row (junk `[]` when the
field or its type is missing; used only to state the decoder theorems). -/
def decodedColumn (msg : PointCloud2) (rows : List (List Byte)) (n : String) :
    List ℚ :=
  match fieldMapFind msg.fields n with
  | some f =>
    match dtypeItemsize f.datatype with
    | some sz => rows.map fun r => decodeScalar f.datatype ((r.drop f.offset).take sz)
    | none => []
  | none => []

/-! ## Time-synchronization engine

Embedding of `SensorDataSynchronizer` from `mcap2hdf5/synchronizer.py`.
The buffered sensor payloads are opaque to the synchronizer, so the state is
polymorphic in the payload type `P` and in the 4×4-matrix type `M`; the two
conversions the synchronizer delegates to `MessageConverter`
(`transformToMatrix`, `interpolateMatrix`) are passed as parameters and
instantiated by the real-number model below.  Timestamps are rationals. -/

/-- Topic constants from `config.py` (present in `pipeline/config.py`). -/
def LIDAR_TOPIC : String := "/sensor/lidar/front/points"

/-- Topic constant from `config.py`. -/
def CAMERA_IMAGE_TOPIC : String := "/sensor/camera/left/image_raw/compressed"

/-- Topic constant from `config.py`. -/
def TF_TOPIC : String := "/tf"

/-- Modelled from the spec: `mcap2hdf5/config.py` is not among the sources;
the spec fixes the transform-cache capacity at `100` ("capacity N (default
100)"). -/
def TF_CACHE_SIZE : Nat := 100

/-- One `geometry_msgs/TransformStamped` inside a `/tf` message, as read by
`updateTFCache`: the two frame ids and the transform payload. -/
structure TFStamped (T : Type _) where
  frameId : String
  childFrameId : String
  transform : T

/-- A buffered `chunkEntry = {TIMESTAMP: ..., ROS_MSG: ...}`. -/
structure ChunkEntry (P : Type _) where
  timestamp : ℚ
  rosMsg : P

/-- One cached transform sample `{TIMESTAMP: ..., TF_MATRIX: ...}`. -/
structure TFEntry (M : Type _) where
  timestamp : ℚ
  tfMatrix : M

/-- A `(topic, msg, timestamp)` record from the ingestion source
(`dataclasses.StreamMessage`). -/
structure StreamMessage (P : Type _) where
  topic : String
  msg : P
  timestamp : ℚ

/-- A fused sample assembled by `flushSamples`. -/
structure FusedSample (P M : Type _) where
  lidar : ChunkEntry P
  camera : ChunkEntry P
  transforms : List (String × M)
  timestamp : ℚ

/-- The mutable state of a `SensorDataSynchronizer`: the two per-topic chunk
buffers, the per-topic last-seen timestamps, the transform cache, and the
two constructor parameters. -/
structure SyncState (P M : Type _) where
  syncThreshold : ℚ
  maxGap : ℚ
  lidarBuffer : List (ChunkEntry P)
  cameraBuffer : List (ChunkEntry P)
  lastLidarTs : Option ℚ
  lastCameraTs : Option ℚ
  tfCache : List (String × List (TFEntry M))

/-- The freshly constructed synchronizer state (`__init__`). -/
def initSync (P M : Type _) (syncThreshold maxGap : ℚ) : SyncState P M :=
  ⟨syncThreshold, maxGap, [], [], none, none, []⟩

/-- Append one cached entry for one transform of a `/tf` message: append to
the key's sequence (created empty on first sight), then `pop(0)` when the
length exceeds `TF_CACHE_SIZE`.  Factored out of `updateTFCache`. -/
def tfListPush {M : Type _} (cap : Nat) (l : List (TFEntry M)) (e : TFEntry M) :
    List (TFEntry M) :=
  let l' := l ++ [e]
  if cap < l'.length then l'.tail else l'

/-- `SensorDataSynchronizer.updateTFCache`: for every transform in the
message, build the key `f"{frameId}_to_{childFrameId}"`, convert the
transform to a matrix, and push it onto that key's bounded sequence. -/
def updateTFCache {P T M : Type _} (getTransforms : P → List (TFStamped T))
    (transformToMatrix : T → M)
    (cache : List (String × List (TFEntry M))) (tfEntry : ChunkEntry P) :
    List (String × List (TFEntry M)) :=
  (getTransforms tfEntry.rosMsg).foldl
    (fun cache tfStamped =>
      let key := tfStamped.frameId ++ "_to_" ++ tfStamped.childFrameId
      let lst := (assocGet cache key).getD []
      assocSet cache key
        (tfListPush TF_CACHE_SIZE lst
          ⟨tfEntry.timestamp, transformToMatrix tfStamped.transform⟩))
    cache

/-- `SensorDataSynchronizer.checkFlushConstraint`. -/
def lastTimestampFor {P M : Type _} (s : SyncState P M) (topic : String) : Option ℚ :=
  if topic = LIDAR_TOPIC then s.lastLidarTs
  else if topic = CAMERA_IMAGE_TOPIC then s.lastCameraTs
  else none

/-- `SensorDataSynchronizer.checkFlushConstraint`: `False` with no last-seen
timestamp for the topic, otherwise `(current - last) > maxGap`. -/
def checkFlushConstraint {P M : Type _} (s : SyncState P M) (sensorTopicName : String)
    (currentTimestamp : ℚ) : Bool :=
  match lastTimestampFor s sensorTopicName with
  | none => false
  | some lastTimestamp => decide (currentTimestamp - lastTimestamp > s.maxGap)

/-- The loop of `findClosestFrame`, with the running pair
`(closestFrame, minDiff)` made explicit (`minDiff` starts at `float('inf')`,
modelled as `⊤ : WithTop ℚ`). -/
def findClosestFrameAux {P : Type _} (targetTimestamp : ℚ) :
    List (ChunkEntry P) → Option (ChunkEntry P) → WithTop ℚ →
      Option (ChunkEntry P) × WithTop ℚ
  | [], closestFrame, minDiff => (closestFrame, minDiff)
  | frame :: rest, closestFrame, minDiff =>
    if ((|frame.timestamp - targetTimestamp| : ℚ) : WithTop ℚ) < minDiff then
      findClosestFrameAux targetTimestamp rest (some frame)
        ((|frame.timestamp - targetTimestamp| : ℚ) : WithTop ℚ)
    else
      findClosestFrameAux targetTimestamp rest closestFrame minDiff

/-- `SensorDataSynchronizer.findClosestFrame`: linear scan keeping the first
frame that strictly improves the running minimal `|timestamp - target|`. -/
def findClosestFrame {P : Type _} (targetTimestamp : ℚ) (frames : List (ChunkEntry P)) :
    Option (ChunkEntry P) :=
  if frames.isEmpty then none
  else (findClosestFrameAux targetTimestamp frames none ⊤).1

/-- The scan of `interpolateTransforms` over one key's cached sequence:
`beforeIdx` tracks the last entry with `timestamp ≤ target`; the loop stops
(`break`) at the first entry with `timestamp ≥ target`, recording it as
`afterIdx`.  Indices are carried together with their entries. -/
def scanBeforeAfter {M : Type _} (targetTimestamp : ℚ) :
    List (TFEntry M) → Nat → Option (Nat × TFEntry M) →
      Option (Nat × TFEntry M) × Option (Nat × TFEntry M)
  | [], _, beforeIdx => (beforeIdx, none)
  | tf :: rest, index, beforeIdx =>
    let beforeIdx := if tf.timestamp ≤ targetTimestamp then some (index, tf) else beforeIdx
    if tf.timestamp ≥ targetTimestamp then (beforeIdx, some (index, tf))
    else scanBeforeAfter targetTimestamp rest (index + 1) beforeIdx

/-- The per-key body of `interpolateTransforms`: the four-way case split on
the scan result (`np.clip(alpha, 0.0, 1.0)` is `min (max alpha 0) 1`); `none`
means the key is omitted from the result dict (which is also what happens for
an empty cached sequence, short-circuited by `continue` in the code). -/
def interpolateTransformsKey {M : Type _} (interpolateMatrix : M → M → ℚ → M)
    (targetTimestamp : ℚ) (tfList : List (TFEntry M)) : Option M :=
  match scanBeforeAfter targetTimestamp tfList 0 none with
  | (some (beforeIdx, before), some (afterIdx, after)) =>
    if beforeIdx = afterIdx then some before.tfMatrix
    else
      let alpha := (targetTimestamp - before.timestamp) /
        (after.timestamp - before.timestamp)
      some (interpolateMatrix before.tfMatrix after.tfMatrix (min (max alpha 0) 1))
  | (some (_, before), none) => some before.tfMatrix
  | (none, some (_, after)) => some after.tfMatrix
  | (none, none) => none

/-- `SensorDataSynchronizer.interpolateTransforms`: query every cached key at
the target timestamp, keeping the keys that produce a matrix, in cache
(insertion) order. -/
def interpolateTransforms {M : Type _} (interpolateMatrix : M → M → ℚ → M)
    (cache : List (String × List (TFEntry M))) (targetTimestamp : ℚ) :
    List (String × M) :=
  cache.filterMap fun p =>
    (interpolateTransformsKey interpolateMatrix targetTimestamp p.2).map
      fun m => (p.1, m)

/-- The body of the `for lidarEntry in lidarFrames` loop of `flushSamples`:
pair the lidar entry with the closest camera frame, drop it when there is
none or when the time difference exceeds the (inclusive) threshold, otherwise
attach the interpolated transforms and assemble the fused sample. -/
def pairLidarEntry {P M : Type _} (interpolateMatrix : M → M → ℚ → M)
    (syncThreshold : ℚ) (cameraFrames : List (ChunkEntry P))
    (tfCache : List (String × List (TFEntry M))) (lidarEntry : ChunkEntry P) :
    Option (FusedSample P M) :=
  match findClosestFrame lidarEntry.timestamp cameraFrames with
  | none => none
  | some closestCamera =>
    if |lidarEntry.timestamp - closestCamera.timestamp| > syncThreshold then none
    else
      some { lidar := lidarEntry, camera := closestCamera,
             transforms := interpolateTransforms interpolateMatrix tfCache
               lidarEntry.timestamp,
             timestamp := lidarEntry.timestamp }

/-- `SensorDataSynchronizer.flushSamples`: resolve every buffered lidar entry
against the camera buffer, then clear both chunk buffers and all last-seen
timestamps (the transform cache is untouched); returns the new state and the
yielded samples in lidar-buffer order. -/
def flushSamples {P M : Type _} (interpolateMatrix : M → M → ℚ → M)
    (s : SyncState P M) : SyncState P M × List (FusedSample P M) :=
  let samples := s.lidarBuffer.filterMap
    (pairLidarEntry interpolateMatrix s.syncThreshold s.cameraBuffer s.tfCache)
  ({ s with lidarBuffer := [], cameraBuffer := [],
            lastLidarTs := none, lastCameraTs := none }, samples)

/-- `self.chunkBuffer[topic].append(chunkEntry)` (only ever called with
`topic ∈ {LIDAR_TOPIC, CAMERA_IMAGE_TOPIC}`). -/
def appendToBuffer {P M : Type _} (s : SyncState P M) (topic : String)
    (entry : ChunkEntry P) : SyncState P M :=
  if topic = LIDAR_TOPIC then { s with lidarBuffer := s.lidarBuffer ++ [entry] }
  else { s with cameraBuffer := s.cameraBuffer ++ [entry] }

/-- `self.lastTimestamps[topic] = timestamp`. -/
def setLastTimestamp {P M : Type _} (s : SyncState P M) (topic : String) (ts : ℚ) :
    SyncState P M :=
  if topic = LIDAR_TOPIC then { s with lastLidarTs := some ts }
  else { s with lastCameraTs := some ts }

/-- `SensorDataSynchronizer.processMessage` (a generator in Python; modelled
as returning the new state together with the yielded fused samples): `/tf`
messages feed the transform cache; lidar/camera messages may first trigger a
flush (checked against the buffered state *before* the new entry is
appended), then are buffered and update the topic's last-seen timestamp; all
other topics are ignored. -/
def processMessage {P T M : Type _} (getTransforms : P → List (TFStamped T))
    (transformToMatrix : T → M) (interpolateMatrix : M → M → ℚ → M)
    (s : SyncState P M) (streamMessage : StreamMessage P) :
    SyncState P M × List (FusedSample P M) :=
  let chunkEntry : ChunkEntry P := ⟨streamMessage.timestamp, streamMessage.msg⟩
  if streamMessage.topic = TF_TOPIC then
    let cache' := updateTFCache getTransforms transformToMatrix s.tfCache chunkEntry
    ({ s with tfCache := cache' }, [])
  else if streamMessage.topic = LIDAR_TOPIC ∨ streamMessage.topic = CAMERA_IMAGE_TOPIC then
    let flushed :=
      if checkFlushConstraint s streamMessage.topic streamMessage.timestamp then
        flushSamples interpolateMatrix s
      else (s, [])
    (setLastTimestamp (appendToBuffer flushed.1 streamMessage.topic chunkEntry)
        streamMessage.topic streamMessage.timestamp,
     flushed.2)
  else (s, [])

/-! ## Growable dataset writer

Embedding of `HDF5Writer` from `pipeline/hdf5_writer.py`.  The HDF5 file is
modelled as a record of its resizable datasets (as lists) and its attributes;
`attrs.get(..., 0)` on a fresh file reads as `0`, so the two counter
attributes are plain naturals initialized to `0`.  An h5py `resize` pads new
positions with the dataset fill value (zero), modelled as `default`; the
decoded per-sample payloads (lidar rows `P`, camera image `I`, transform
matrix `T`) are opaque to the writer.  The camera image shape bookkeeping
(fixed from the first sample) has no observable effect on the modelled fields
and is not represented. -/

/-- `INITIAL_LIDAR_CAPACITY` from `pipeline/config.py`. -/
def INITIAL_LIDAR_CAPACITY : Nat := 1000000

/-- The parts of one fused sample that `writeBatch` reads, with the two
payload decodings (`lidarToNumpy`, `compressedImageToNumpy`) already
applied: the writer only uses the decoded row count and stores the decoded
values opaquely. -/
structure WSample (P I T : Type _) where
  timestamp : ℚ
  chunkId : ℤ
  lidarData : List P
  cameraData : I
  transforms : List (String × T)

/-- The writer-owned state: the `initialized` flag, the two counter
attributes (`num_samples`, `lidar_point_offset`), and the file's datasets. -/
structure WriterState (P I T : Type _) where
  initialized : Bool
  numSamples : Nat
  lidarPointOffset : Nat
  timestamps : List ℚ
  chunkIds : List ℤ
  lidarPool : List P
  offsets : List Nat
  counts : List Nat
  cameraImages : List I
  tfDatasets : List (String × List T)

/-- A freshly constructed `HDF5Writer` (empty file, attributes absent and
hence read as `0`, no datasets). -/
def initWriter (P I T : Type _) : WriterState P I T :=
  ⟨false, 0, 0, [], [], [], [], [], [], []⟩

/-- `dataset.resize((n, ...))`: truncate to, or extend with the fill value
(`default`) up to, exactly `n` entries. -/
def resizeTo {α : Type _} [Inhabited α] (l : List α) (n : Nat) : List α :=
  l.take n ++ List.replicate (n - l.length) default

/-- `HDF5Writer.createDatasets`: allocate every per-sample dataset at length
0, the lidar point pool at `INITIAL_LIDAR_CAPACITY`, an empty transforms
group, and both counter attributes at 0.  (The `sampleTemplate` argument
only fixes the image shape, which is not modelled.) -/
def createDatasets {P I T : Type _} [Inhabited P] (s : WriterState P I T)
    (_sampleTemplate : WSample P I T) : WriterState P I T :=
  { s with timestamps := [], chunkIds := [],
           lidarPool := List.replicate INITIAL_LIDAR_CAPACITY default,
           offsets := [], counts := [], cameraImages := [], tfDatasets := [],
           numSamples := 0, lidarPointOffset := 0 }

/-- `HDF5Writer.resizeDatasets`: grow every fixed-shape per-sample dataset to
`newSize`. -/
def resizeDatasets {P I T : Type _} [Inhabited I] (s : WriterState P I T)
    (newSize : Nat) : WriterState P I T :=
  { s with timestamps := resizeTo s.timestamps newSize,
           chunkIds := resizeTo s.chunkIds newSize,
           offsets := resizeTo s.offsets newSize,
           counts := resizeTo s.counts newSize,
           cameraImages := resizeTo s.cameraImages newSize }

/-- `HDF5Writer.resizeLidarData`: amortized doubling of the point pool. -/
def resizeLidarData {P I T : Type _} [Inhabited P] (s : WriterState P I T)
    (minSize : Nat) : WriterState P I T :=
  let currentSize := s.lidarPool.length
  let newSize := max minSize (currentSize * 2)
  { s with lidarPool := resizeTo s.lidarPool newSize }

/-- `dataset[off:off+len(rows)] = rows` (h5py requires the slice to lie
inside the dataset, which the growth check just before guarantees). -/
def writeSlice {α : Type _} (pool : List α) (off : Nat) (rows : List α) : List α :=
  pool.take off ++ rows ++ pool.drop (off + rows.length)

/-- The body of the `for tfKey, tfMatrix in sample[TRANSFORMS].items()` loop
of `writeBatch`: create the key's dataset at length 0 on first sight, resize
it to `globalIndex + 1` (h5py zero-fills the new positions), and write the
matrix at `globalIndex`. -/
def writeTFKey {T : Type _} [Inhabited T] (tfds : List (String × List T))
    (globalIndex : Nat) (kv : String × T) : List (String × List T) :=
  let ds := (assocGet tfds kv.1).getD []
  let ds := resizeTo ds (globalIndex + 1)
  let ds := ds.set globalIndex kv.2
  assocSet tfds kv.1 ds

/-- The body (one iteration) of the `for index, sample in enumerate(samples)`
loop of `writeBatch`, writing one fused sample at `globalIndex`: timestamp
and chunk id; then the lidar rows at the current point-pool cursor (growing
the pool by amortized doubling when needed), recording the `(offset, count)`
range and advancing the cursor attribute; then the camera image; finally the
per-key transform datasets. -/
def writeOne {P I T : Type _} [Inhabited P] [Inhabited T] (s : WriterState P I T)
    (globalIndex : Nat) (sample : WSample P I T) : WriterState P I T :=
  let s := { s with timestamps := s.timestamps.set globalIndex sample.timestamp,
                    chunkIds := s.chunkIds.set globalIndex sample.chunkId }
  let pointOffset := s.lidarPointOffset
  let numPoints := sample.lidarData.length
  let s := if s.lidarPool.length < pointOffset + numPoints then
             resizeLidarData s (pointOffset + numPoints)
           else s
  let s := { s with lidarPool := writeSlice s.lidarPool pointOffset sample.lidarData,
                    offsets := s.offsets.set globalIndex pointOffset,
                    counts := s.counts.set globalIndex numPoints,
                    lidarPointOffset := pointOffset + numPoints }
  let s := { s with cameraImages := s.cameraImages.set globalIndex sample.cameraData }
  let tfds' := sample.transforms.foldl
    (fun tfds kv => writeTFKey tfds globalIndex kv) s.tfDatasets
  { s with tfDatasets := tfds' }

/-- The `for index, sample in enumerate(samples)` loop of `writeBatch`. -/
def writeLoop {P I T : Type _} [Inhabited P] [Inhabited T] (s : WriterState P I T)
    (globalIndex : Nat) : List (WSample P I T) → WriterState P I T
  | [] => s
  | sample :: rest => writeLoop (writeOne s globalIndex sample) (globalIndex + 1) rest

/-- `HDF5Writer.writeBatch`: a no-op on an empty batch; otherwise create the
datasets on the first call, resize every per-sample dataset to
`startIndex + len(samples)`, write every sample at its global index, and
finally store the new sample count. -/
def writeBatch {P I T : Type _} [Inhabited P] [Inhabited I] [Inhabited T]
    (s : WriterState P I T) (samples : List (WSample P I T)) : WriterState P I T :=
  match samples with
  | [] => s
  | first :: _ =>
    let s := if s.initialized then s
             else { createDatasets s first with initialized := true }
    let startIndex := s.numSamples
    let numNewSamples := samples.length
    let s := resizeDatasets s (startIndex + numNewSamples)
    let s := writeLoop s startIndex samples
    { s with numSamples := startIndex + numNewSamples }

/-- The cumulative effect of a write loop on the transforms group alone
(used to state the transform-dataset theorems without evaluating the other
datasets). -/
def tfDatasetsAfter {P I T : Type _} [Inhabited T] (tfds : List (String × List T))
    (globalIndex : Nat) : List (WSample P I T) → List (String × List T)
  | [] => tfds
  | sample :: rest =>
    tfDatasetsAfter
      (sample.transforms.foldl (fun t kv => writeTFKey t globalIndex kv) tfds)
      (globalIndex + 1) rest

/-- The dense-packing specification of the writer's lidar ranges, restricted
to the first `n` samples: consecutive `(offset, count)` ranges tile without
gap or overlap and the point-pool cursor sits at the end of the last range. -/
def densePackedUpTo (offs cnts : List Nat) (cursor : Nat) (n : Nat) : Prop :=
  (∀ i, i + 1 < n → offs.getD (i + 1) 0 = offs.getD i 0 + cnts.getD i 0) ∧
  (0 < n → offs.getD (n - 1) 0 + cnts.getD (n - 1) 0 = cursor) ∧
  (n = 0 → cursor = 0)

/-- The writer invariant: the offset/count tables cover exactly the
`num_samples` recorded samples and are densely packed up to the cursor. -/
def writerPacked {P I T : Type _} (s : WriterState P I T) : Prop :=
  s.offsets.length = s.numSamples ∧ s.counts.length = s.numSamples ∧
  densePackedUpTo s.offsets s.counts s.lidarPointOffset s.numSamples

/-! ## Rigid-transform interpolation numerics

Embedding of `MessageConverter.interpolateMatrix` over the real numbers
(float32 arithmetic idealized as exact).  The two scipy conversions the code
uses are embedded explicitly:

* `Rotation.from_quat(q).as_matrix()` normalizes its input and applies the
  standard unit-quaternion-to-matrix formula; since that formula is
  homogeneous of degree 2, the composition is `quatToMatrix` below (division
  by the squared norm);
* `Rotation.from_matrix(M).as_quat()` is the branch-on-largest-of
  `[m00, m11, m22, trace]` algorithm of scipy's `from_matrix` (the if-chain
  below encodes numpy `argmax`, whose ties pick the first maximum), followed
  by normalization.

Quaternions are in scipy's `(x, y, z, w)` order. -/

/-- A quaternion `(x, y, z, w)` (scipy component order). -/
structure Quat where
  x : ℝ
  y : ℝ
  z : ℝ
  w : ℝ

/-- Squared norm `x² + y² + z² + w²`. -/
def Quat.normSq (q : Quat) : ℝ := q.x ^ 2 + q.y ^ 2 + q.z ^ 2 + q.w ^ 2

/-- Dot product of two quaternions as 4-vectors (`np.dot(quat1, quat2)`). -/
def Quat.dot (p q : Quat) : ℝ := p.x * q.x + p.y * q.y + p.z * q.z + p.w * q.w

/-- Scalar multiple of a quaternion as a 4-vector. -/
def Quat.smul (c : ℝ) (q : Quat) : Quat := ⟨c * q.x, c * q.y, c * q.z, c * q.w⟩

/-- Sum of two quaternions as 4-vectors. -/
def Quat.add (p q : Quat) : Quat := ⟨p.x + q.x, p.y + q.y, p.z + q.z, p.w + q.w⟩

/-- Negation (`-quat2` in the shortest-arc sign alignment). -/
def Quat.neg (q : Quat) : Quat := ⟨-q.x, -q.y, -q.z, -q.w⟩

/-- Euclidean norm (`np.linalg.norm`). -/
noncomputable def Quat.norm (q : Quat) : ℝ := Real.sqrt q.normSq

/-- `Rotation.from_quat(q).as_matrix()`: normalize, then the standard
formula; equivalently (by degree-2 homogeneity) the formula divided by the
squared norm. -/
noncomputable def quatToMatrix (q : Quat) : Matrix (Fin 3) (Fin 3) ℝ :=
  let n := q.normSq
  !![(n - 2 * (q.y ^ 2 + q.z ^ 2)) / n, 2 * (q.x * q.y - q.z * q.w) / n,
       2 * (q.x * q.z + q.y * q.w) / n;
     2 * (q.x * q.y + q.z * q.w) / n, (n - 2 * (q.x ^ 2 + q.z ^ 2)) / n,
       2 * (q.y * q.z - q.x * q.w) / n;
     2 * (q.x * q.z - q.y * q.w) / n, 2 * (q.y * q.z + q.x * q.w) / n,
       (n - 2 * (q.x ^ 2 + q.y ^ 2)) / n]

/-- `Rotation.from_matrix(m).as_quat()` (scipy): pick the largest of
`[m00, m11, m22, trace]` (first maximum, as numpy `argmax`), build the
corresponding unnormalized quaternion, and normalize it. -/
noncomputable def matrixToQuat (m : Matrix (Fin 3) (Fin 3) ℝ) : Quat :=
  let tr := m 0 0 + m 1 1 + m 2 2
  let q : Quat :=
    if m 0 0 ≥ m 1 1 ∧ m 0 0 ≥ m 2 2 ∧ m 0 0 ≥ tr then
      ⟨1 - tr + 2 * m 0 0, m 1 0 + m 0 1, m 2 0 + m 0 2, m 2 1 - m 1 2⟩
    else if m 1 1 ≥ m 2 2 ∧ m 1 1 ≥ tr then
      ⟨m 0 1 + m 1 0, 1 - tr + 2 * m 1 1, m 2 1 + m 1 2, m 0 2 - m 2 0⟩
    else if m 2 2 ≥ tr then
      ⟨m 0 2 + m 2 0, m 1 2 + m 2 1, 1 - tr + 2 * m 2 2, m 1 0 - m 0 1⟩
    else
      ⟨m 2 1 - m 1 2, m 0 2 - m 2 0, m 1 0 - m 0 1, 1 + tr⟩
  Quat.smul (1 / q.norm) q

/-- The upper-left 3×3 rotation block `m[0:3, 0:3]` of a 4×4 matrix. -/
def rotBlock (m : Matrix (Fin 4) (Fin 4) ℝ) : Matrix (Fin 3) (Fin 3) ℝ :=
  Matrix.of fun i j => m i.castSucc j.castSucc

/-- The translation column `m[0:3, 3]` of a 4×4 matrix. -/
def transOf (m : Matrix (Fin 4) (Fin 4) ℝ) (i : Fin 3) : ℝ := m i.castSucc 3

/-- `np.eye(4)` with the rotation block and translation column overwritten:
the result shape of `interpolateMatrix` (bottom row `[0, 0, 0, 1]`). -/
def assembleRigid (r : Matrix (Fin 3) (Fin 3) ℝ) (t : Fin 3 → ℝ) :
    Matrix (Fin 4) (Fin 4) ℝ :=
  Matrix.of fun i j =>
    if hi : (i : ℕ) < 3 then
      if hj : (j : ℕ) < 3 then r ⟨i, hi⟩ ⟨j, hj⟩ else t ⟨i, hi⟩
    else if (j : ℕ) < 3 then 0 else 1

/-- A 4×4 matrix is a (real-idealized) rigid transform: its rotation block is
the image of a unit quaternion (the quaternion double cover of SO(3), the
form in which scipy produces every rotation matrix) and it equals its own
reassembly, i.e. its bottom row is `[0, 0, 0, 1]`. -/
def IsRigid (m : Matrix (Fin 4) (Fin 4) ℝ) : Prop :=
  (∃ u : Quat, u.normSq = 1 ∧ rotBlock m = quatToMatrix u) ∧
  m = assembleRigid (rotBlock m) (transOf m)

/-- `MessageConverter.interpolateMatrix`: blend the translations linearly;
convert both rotation blocks to unit quaternions, align signs to the shorter
arc (negate the second when the dot product is negative), blend linearly,
renormalize, and convert back; assemble over `np.eye(4)`. -/
noncomputable def interpolateMatrix (matrix1 matrix2 : Matrix (Fin 4) (Fin 4) ℝ)
    (alpha : ℝ) : Matrix (Fin 4) (Fin 4) ℝ :=
  let t : Fin 3 → ℝ := fun i => (1 - alpha) * transOf matrix1 i + alpha * transOf matrix2 i
  let quat1 := matrixToQuat (rotBlock matrix1)
  let quat2 := matrixToQuat (rotBlock matrix2)
  let quat2 := if quat1.dot quat2 < 0 then quat2.neg else quat2
  let quatInterp := Quat.add (Quat.smul (1 - alpha) quat1) (Quat.smul alpha quat2)
  let quatInterp := Quat.smul (1 / quatInterp.norm) quatInterp
  assembleRigid (quatToMatrix quatInterp) t

/-! ## Theorems -/

@[simp] theorem assocGet_nil {β : Type _} (k : String) :
    assocGet ([] : List (String × β)) k = none := rfl

theorem assocGet_cons {β : Type _} (p : String × β) (l : List (String × β)) (k : String) :
    assocGet (p :: l) k = if p.1 = k then some p.2 else assocGet l k := by
  by_cases h : p.1 = k
  · simp [assocGet, List.find?_cons_of_pos, h]
  · simp [assocGet, List.find?_cons_of_neg, h]

/-- `assocSet` behaves like a function update with respect to `assocGet`. -/
theorem assocGet_assocSet {β : Type _} (l : List (String × β)) (k k' : String) (v : β) :
    assocGet (assocSet l k v) k' = if k = k' then some v else assocGet l k' := by
  induction l with
  | nil => by_cases h : k = k' <;> simp [assocSet, assocGet_cons, h]
  | cons p t ih =>
    by_cases hpk : p.1 = k
    · simp only [assocSet, hpk, beq_self_eq_true, if_true]
      rw [assocGet_cons, assocGet_cons]
      by_cases hk : k = k'
      · simp [hk]
      · simp [hk, hpk]
    · rw [show assocSet (p :: t) k v = p :: assocSet t k v by simp [assocSet, hpk]]
      rw [assocGet_cons, ih, assocGet_cons]
      by_cases hpk' : p.1 = k'
      · have hkk' : ¬ k = k' := fun h => hpk (h ▸ hpk')
        simp [hpk', hkk']
      · simp [hpk']

/-! ### The writer's empty-batch frame condition (C10) -/

/-- **C10**: calling `writeBatch` with an empty sample list is a no-op for
every writer state: the state — initialization flag, every dataset (so no
group or dataset is created, even before the first initializing call), the
`num_samples` attribute and the point-pool write cursor — is returned
unchanged. -/
theorem writeBatch_empty_noop {P I T : Type _} [Inhabited P] [Inhabited I] [Inhabited T]
    (s : WriterState P I T) : writeBatch s [] = s := rfl

/-! ### The transform cache bound and FIFO eviction (C9) -/

theorem tfListPush_length_le {M : Type _} (cap : Nat) (l : List (TFEntry M))
    (e : TFEntry M) (h : l.length ≤ cap) : (tfListPush cap l e).length ≤ cap := by
  simp only [tfListPush]
  split
  · simp only [List.length_tail, List.length_append, List.length_cons, List.length_nil]
    omega
  · next hc =>
    simp only [List.length_append, List.length_cons, List.length_nil]
    simp only [List.length_append, List.length_cons, List.length_nil] at hc
    omega

/-- Folding `tfListPush` keeps the capacity-many most recent entries: pushing
the entries of `es` onto an accumulator of length at most `cap` keeps exactly
the last `cap` entries of `acc ++ es` (in order). -/
theorem tfListPush_foldl_drop {M : Type _} (cap : Nat) :
    ∀ (es acc : List (TFEntry M)), acc.length ≤ cap →
      es.foldl (tfListPush cap) acc = (acc ++ es).drop (acc.length + es.length - cap) := by
  intro es
  induction es with
  | nil =>
    intro acc h
    simp only [List.foldl_nil, List.append_nil, List.length_nil, Nat.add_zero]
    rw [Nat.sub_eq_zero_of_le h, List.drop_zero]
  | cons e rest ih =>
    intro acc h
    rw [List.foldl_cons]
    by_cases hlt : acc.length < cap
    · have hpush : tfListPush cap acc e = acc ++ [e] := by
        simp only [tfListPush]
        rw [if_neg (by simp only [List.length_append, List.length_cons, List.length_nil]; omega)]
      have hlen2 : (acc ++ [e]).length ≤ cap := by
        simp only [List.length_append, List.length_cons, List.length_nil]; omega
      rw [hpush, ih (acc ++ [e]) hlen2]
      have i1 : (acc ++ [e]).length + rest.length - cap = acc.length + (e :: rest).length - cap := by
        simp only [List.length_append, List.length_cons, List.length_nil, List.length_cons]; omega
      have l1 : (acc ++ [e]) ++ rest = acc ++ e :: rest := by simp
      rw [i1, l1]
    · have hacc : acc.length = cap := by omega
      have hpush : tfListPush cap acc e = (acc ++ [e]).tail := by
        simp only [tfListPush]
        rw [if_pos (by simp only [List.length_append, List.length_cons, List.length_nil]; omega)]
      have htl : ((acc ++ [e]).tail).length ≤ cap := by
        simp only [List.length_tail, List.length_append, List.length_cons, List.length_nil]
        omega
      rw [hpush, ih _ htl]
      cases acc with
      | nil =>
        have hcap0 : cap = 0 := by simpa using hacc.symm
        simp [hcap0]
      | cons a t =>
        have e1 : ((a :: t) ++ [e]).tail = t ++ [e] := by simp
        rw [e1]
        have hlen : t.length + 1 = cap := by simpa using hacc
        have i1 : (t ++ [e]).length + rest.length - cap = rest.length := by
          simp only [List.length_append, List.length_cons, List.length_nil]; omega
        have i2 : (a :: t).length + (e :: rest).length - cap = rest.length + 1 := by
          simp only [List.length_cons]; omega
        rw [i1, i2]
        have l1 : (t ++ [e]) ++ rest = t ++ e :: rest := by simp
        have l2 : (a :: t) ++ e :: rest = a :: (t ++ e :: rest) := by simp
        rw [l1, l2, List.drop_succ_cons]

/-- **C9**: the transform cache is bounded and FIFO.  (a) `updateTFCache`
preserves the invariant that every key's cached sequence has at most
`TF_CACHE_SIZE` (= 100) entries, so no ingest ever pushes a sequence past the
capacity; (b) pushing `TF_CACHE_SIZE + k` entries for one key onto an empty
sequence leaves exactly the `TF_CACHE_SIZE` most recently inserted entries,
in insertion order — the `k` oldest are evicted from index 0 first. -/
theorem tfCache_capacity_fifo {P T M : Type _} (getTransforms : P → List (TFStamped T))
    (transformToMatrix : T → M) :
    (∀ (cache : List (String × List (TFEntry M))) (entry : ChunkEntry P),
        (∀ k l, assocGet cache k = some l → l.length ≤ TF_CACHE_SIZE) →
        ∀ k l,
          assocGet (updateTFCache getTransforms transformToMatrix cache entry) k = some l →
          l.length ≤ TF_CACHE_SIZE) ∧
    (∀ (es : List (TFEntry M)) (k : Nat), es.length = TF_CACHE_SIZE + k →
        es.foldl (tfListPush TF_CACHE_SIZE) [] = es.drop k) := by
  constructor
  · intro cache entry hinv k l hget
    unfold updateTFCache at hget
    revert hget
    -- the fold over the message's transforms preserves the bound invariant
    suffices hgen : ∀ (ts : List (TFStamped T)) (c : List (String × List (TFEntry M))),
        (∀ k l, assocGet c k = some l → l.length ≤ TF_CACHE_SIZE) →
        ∀ k l, assocGet (ts.foldl (fun cache tfStamped =>
          assocSet cache (tfStamped.frameId ++ "_to_" ++ tfStamped.childFrameId)
            (tfListPush TF_CACHE_SIZE
              ((assocGet cache (tfStamped.frameId ++ "_to_" ++ tfStamped.childFrameId)).getD [])
              ⟨entry.timestamp, transformToMatrix tfStamped.transform⟩)) c) k = some l →
          l.length ≤ TF_CACHE_SIZE by
      intro hget
      exact hgen (getTransforms entry.rosMsg) cache hinv k l hget
    intro ts
    induction ts with
    | nil => intro c hc k l hget; exact hc k l hget
    | cons t rest ih =>
      intro c hc k l hget
      refine ih _ ?_ k l hget
      intro k' l' hget'
      rw [assocGet_assocSet] at hget'
      by_cases hk : t.frameId ++ "_to_" ++ t.childFrameId = k'
      · rw [if_pos hk] at hget'
        cases hget'
        apply tfListPush_length_le
        cases hfound : assocGet c (t.frameId ++ "_to_" ++ t.childFrameId) with
        | none => simp [hfound]
        | some l0 => simpa [hfound] using hc _ l0 hfound
      · rw [if_neg hk] at hget'
        exact hc k' l' hget'
  · intro es k hlen
    rw [tfListPush_foldl_drop TF_CACHE_SIZE es [] (by simp)]
    simp only [List.nil_append, List.length_nil, Nat.zero_add]
    congr 1
    omega

/-- Witness for `tfCache_capacity_fifo` at concrete inputs: ingesting one
transform into a cache holding a full sequence of 100 entries for its key
keeps the sequence at 100 entries, and pushing 103 entries onto an empty
sequence keeps the last 100. -/
theorem tfCache_capacity_fifo_witness :
    (((assocGet
        (updateTFCache (fun _ : Unit => [⟨"a", "b", ()⟩]) (fun _ : Unit => ())
          [("a_to_b", List.replicate 100 (⟨0, ()⟩ : TFEntry Unit))]
          ⟨5, ()⟩) "a_to_b").getD []).length ≤ TF_CACHE_SIZE) ∧
    (List.map (fun (i : ℕ) => (⟨(i : ℚ), ()⟩ : TFEntry Unit)) (List.range 103)).foldl
        (tfListPush TF_CACHE_SIZE) [] =
      (List.map (fun (i : ℕ) => (⟨(i : ℚ), ()⟩ : TFEntry Unit)) (List.range 103)).drop 3 := by
  constructor
  · cases hget : assocGet
        (updateTFCache (fun _ : Unit => [⟨"a", "b", ()⟩]) (fun _ : Unit => ())
          [("a_to_b", List.replicate 100 (⟨0, ()⟩ : TFEntry Unit))]
          ⟨5, ()⟩) "a_to_b" with
    | none => simp
    | some l =>
      have h := (tfCache_capacity_fifo (fun _ : Unit => [⟨"a", "b", ()⟩])
          (fun _ : Unit => ())).1
        [("a_to_b", List.replicate 100 (⟨0, ()⟩ : TFEntry Unit))] ⟨5, ()⟩
        (by
          intro k l' hget'
          rw [assocGet_cons] at hget'
          by_cases hk : "a_to_b" = k
          · rw [if_pos hk] at hget'
            cases hget'
            simp [TF_CACHE_SIZE]
          · rw [if_neg hk] at hget'
            simp at hget')
        "a_to_b" l hget
      simpa [hget] using h
  · exact (tfCache_capacity_fifo (fun _ : Unit => ([] : List (TFStamped Unit)))
      (fun _ : Unit => ())).2 _ 3 (by rw [List.length_map, List.length_range]; rfl)

/-! ### Decoder failure on missing fields (C8) -/

/-- **C8**: whenever any requested field name is absent from the record's
field descriptors — regardless of its position in the request list — decoding
fails with a `ValueError` naming a missing field (the first missing one in
request order) and produces no output matrix; no default values are
fabricated for the missing field. -/
theorem lidarToNumpy_missing_field (msg : PointCloud2) (fieldNames : List String)
    (h : ∃ n ∈ fieldNames, fieldMapFind msg.fields n = none) :
    ∃ n ∈ fieldNames, fieldMapFind msg.fields n = none ∧
      lidarToNumpy msg fieldNames = .error ("PointCloud2 missing field: " ++ n) := by
  obtain ⟨n, hn, hnone⟩ := h
  have hsome : (fieldNames.find? fun m => (fieldMapFind msg.fields m).isNone).isSome := by
    rw [List.find?_isSome]
    exact ⟨n, hn, by simp [hnone]⟩
  obtain ⟨n0, hfind⟩ := Option.isSome_iff_exists.mp hsome
  refine ⟨n0, List.mem_of_find?_eq_some hfind, ?_, ?_⟩
  · have := List.find?_some hfind
    simpa using this
  · unfold lidarToNumpy
    rw [hfind]
    rfl

/-- Witness for `lidarToNumpy_missing_field`: a record with fields
`x, y, z` only, queried with the default field list, reports the missing
`intensity` field. -/
theorem lidarToNumpy_missing_field_witness :
    ∃ n ∈ ["x", "y", "z", "intensity"],
      fieldMapFind [⟨"x", 0, 7⟩, ⟨"y", 4, 7⟩, ⟨"z", 8, 7⟩] n = none ∧
      lidarToNumpy ⟨[⟨"x", 0, 7⟩, ⟨"y", 4, 7⟩, ⟨"z", 8, 7⟩], [], 12⟩
          ["x", "y", "z", "intensity"] =
        .error ("PointCloud2 missing field: " ++ n) :=
  lidarToNumpy_missing_field ⟨[⟨"x", 0, 7⟩, ⟨"y", 4, 7⟩, ⟨"z", 8, 7⟩], [], 12⟩
    ["x", "y", "z", "intensity"] ⟨"intensity", by decide, by decide⟩

/-! ### Decoder shape and layout (C7) -/

/-- `chunkRows` splits a payload of `N` full rows into exactly the `N`
stride-sized slices. -/
theorem chunkRows_eq (stride : Nat) (hs : 0 < stride) :
    ∀ (N : Nat) (l : List Byte), l.length = N * stride →
      chunkRows stride l = (List.range N).map fun i => (l.drop (i * stride)).take stride := by
  intro N
  induction N with
  | zero =>
    intro l hl
    have hnil : l = [] := List.eq_nil_of_length_eq_zero (by simpa using hl)
    subst hnil
    rw [chunkRows]
    simp
  | succ n ih =>
    intro l hl
    have hmul : (n + 1) * stride = n * stride + stride := by
      rw [Nat.succ_mul]
    have hne : l ≠ [] := by
      intro hn0
      subst hn0
      simp only [List.length_nil] at hl
      omega
    rw [chunkRows, dif_neg (by push_neg; exact ⟨Nat.pos_iff_ne_zero.mp hs, hne⟩)]
    have hdl : (l.drop stride).length = n * stride := by
      simp only [List.length_drop, hl]
      omega
    rw [ih _ hdl, List.range_succ_eq_map, List.map_cons, List.map_map]
    congr 1
    · simp
    · apply List.map_congr_left
      intro i _
      simp only [Function.comp_apply, List.drop_drop]
      congr 2
      rw [Nat.succ_mul]
      omega

/-- `List.mapM` over `Except` succeeds pointwise. -/
theorem mapM_ok_of_forall_ok {α β : Type _} (f : α → Except String β) (g : α → β) :
    ∀ (l : List α), (∀ a ∈ l, f a = .ok (g a)) → l.mapM f = .ok (l.map g) := by
  intro l
  induction l with
  | nil => intro _; rfl
  | cons a t ih =>
    intro h
    rw [List.mapM_cons, h a (by simp), ih fun b hb => h b (by simp [hb])]
    rfl

/-- Slicing a field's byte range out of one fixed-stride row equals slicing
it directly out of the flat payload at `rowIndex * stride + offset`. -/
theorem slice_of_row (data : List Byte) (stride i off sz : Nat)
    (hfit : off + sz ≤ stride) :
    ((((data.drop (i * stride)).take stride).drop off).take sz) =
      (data.drop (i * stride + off)).take sz := by
  rw [List.drop_take, List.take_take, List.drop_drop]
  rw [min_eq_left (by omega)]

/-- **C7**: for a record with `N` fixed-stride rows and requested field names
all present (with supported scalar types fitting inside the stride), decoding
returns a dense `N × F` matrix whose column order matches the requested name
order, with entry `(i, j)` read from row `i` at column `j`'s declared byte
offset using its declared scalar type — inter-field padding is skipped, the
slice is taken at the declared offset inside the row regardless of how the
fields tile the stride.  A zero-row input (`N = 0`) yields a valid zero-row
matrix. -/
theorem lidarToNumpy_spec (msg : PointCloud2) (fieldNames : List String) (N : Nat)
    (hstep : 0 < msg.point_step)
    (hlen : msg.data.length = N * msg.point_step)
    (hfields : ∀ n ∈ fieldNames, ∃ f sz, fieldMapFind msg.fields n = some f ∧
        dtypeItemsize f.datatype = some sz ∧ f.offset + sz ≤ msg.point_step) :
    ∃ M : List (List ℚ),
      lidarToNumpy msg fieldNames = .ok M ∧
      M.length = N ∧
      (∀ row ∈ M, row.length = fieldNames.length) ∧
      (∀ i, i < N → ∀ j, ∀ hj : j < fieldNames.length, ∀ (f : PointField) (sz : Nat),
        fieldMapFind msg.fields (fieldNames.get ⟨j, hj⟩) = some f →
        dtypeItemsize f.datatype = some sz →
        (M.getD i []).getD j 0 =
          decodeScalar f.datatype
            ((msg.data.drop (i * msg.point_step + f.offset)).take sz)) := by
  have hrows : chunkRows msg.point_step msg.data =
      (List.range N).map fun i => (msg.data.drop (i * msg.point_step)).take msg.point_step :=
    chunkRows_eq msg.point_step hstep N msg.data hlen
  have hrowslen : (chunkRows msg.point_step msg.data).length = N := by
    rw [hrows, List.length_map, List.length_range]
  have hnomiss : (fieldNames.find? fun m => (fieldMapFind msg.fields m).isNone) = none := by
    rw [List.find?_eq_none]
    intro n hn
    obtain ⟨f, sz, hf, _, _⟩ := hfields n hn
    simp [hf]
  have hguard : ¬ (msg.point_step = 0 ∨ msg.data.length % msg.point_step ≠ 0) := by
    push_neg
    exact ⟨Nat.pos_iff_ne_zero.mp hstep, by rw [hlen]; exact Nat.mul_mod_left N msg.point_step⟩
  have hmapM : fieldNames.mapM (fun n =>
      match fieldMapFind msg.fields n with
      | none => (throw "unreachable: field presence already checked" : Except String (List ℚ))
      | some f =>
        match dtypeItemsize f.datatype with
        | none => throw "KeyError: unsupported PointField datatype"
        | some size =>
          if f.offset + size > msg.point_step ∧
              (chunkRows msg.point_step msg.data).length ≠ 0 then
            throw "ValueError: could not broadcast input array"
          else
            pure ((chunkRows msg.point_step msg.data).map fun (r : List Byte) =>
              decodeScalar f.datatype ((r.drop f.offset).take size))) =
      .ok (fieldNames.map (decodedColumn msg (chunkRows msg.point_step msg.data))) := by
    apply mapM_ok_of_forall_ok
    intro n hn
    obtain ⟨f, sz, hf, hsz, hfit⟩ := hfields n hn
    simp only [hf, hsz, decodedColumn]
    rw [if_neg (by push_neg; intro hgt; omega)]
    rfl
  refine ⟨(List.range (chunkRows msg.point_step msg.data).length).map fun i =>
      (fieldNames.map (decodedColumn msg (chunkRows msg.point_step msg.data))).map
        fun c => c.getD i 0,
    ?_, ?_, ?_, ?_⟩
  · unfold lidarToNumpy
    rw [hnomiss]
    rw [if_neg hguard]
    rw [hmapM]
    rfl
  · rw [List.length_map, List.length_range, hrowslen]
  · intro row hrow
    obtain ⟨i, _, hrw⟩ := List.mem_map.mp hrow
    rw [← hrw, List.length_map, List.length_map]
  · intro i hi j hj f sz hf hsz
    have hi' : i < (chunkRows msg.point_step msg.data).length := by
      rw [hrowslen]; exact hi
    have hgetM : ((List.range (chunkRows msg.point_step msg.data).length).map fun i =>
        (fieldNames.map (decodedColumn msg (chunkRows msg.point_step msg.data))).map
          fun c => c.getD i 0).getD i [] =
        (fieldNames.map (decodedColumn msg (chunkRows msg.point_step msg.data))).map
          fun c => c.getD i 0 := by
      rw [List.getD_eq_getElem _ _ (by simpa using hi'), List.getElem_map,
        List.getElem_range]
    rw [hgetM]
    have hj' : j < (fieldNames.map
        (decodedColumn msg (chunkRows msg.point_step msg.data))).length := by
      simpa using hj
    rw [List.getD_eq_getElem _ _ (by simpa using hj'), List.getElem_map, List.getElem_map]
    have hname : fieldNames[j] = fieldNames.get ⟨j, hj⟩ := rfl
    rw [hname]
    have hcol : decodedColumn msg (chunkRows msg.point_step msg.data)
        (fieldNames.get ⟨j, hj⟩) =
        (chunkRows msg.point_step msg.data).map
          fun r => decodeScalar f.datatype ((r.drop f.offset).take sz) := by
      simp only [decodedColumn, hf, hsz]
    rw [hcol]
    rw [List.getD_eq_getElem _ _ (by simpa using hi'), List.getElem_map]
    have hrowi : (chunkRows msg.point_step msg.data)[i] =
        (msg.data.drop (i * msg.point_step)).take msg.point_step := by
      simp only [hrows, List.getElem_map, List.getElem_range]
    rw [hrowi]
    obtain ⟨f', sz', hf', hsz', hfit'⟩ := hfields _ (fieldNames.get_mem j hj)
    have hff : f' = f := by rw [hf'] at hf; exact Option.some.inj hf
    have hszsz : sz' = sz := by
      rw [hff] at hsz'
      rw [hsz'] at hsz
      exact Option.some.inj hsz
    rw [slice_of_row msg.data msg.point_step i f.offset sz
      (by rw [← hff, ← hszsz]; exact hfit')]

/-- Witness for `lidarToNumpy_spec`: a padded two-row record (uint8 `x` at
offset 0, one padding byte, uint16 `i` at offset 2, stride 4) decodes into a
2×2 matrix, and a zero-row record decodes into a valid zero-row matrix. -/
theorem lidarToNumpy_spec_witness :
    (∃ M : List (List ℚ),
        lidarToNumpy ⟨[⟨"x", 0, 2⟩, ⟨"i", 2, 4⟩],
            [9, 99, 100, 0, 7, 99, 1, 1], 4⟩ ["x", "i"] = .ok M ∧
        M.length = 2 ∧ (∀ row ∈ M, row.length = 2)) ∧
    (∃ M0 : List (List ℚ),
        lidarToNumpy ⟨[⟨"x", 0, 7⟩], [], 4⟩ ["x"] = .ok M0 ∧ M0.length = 0) := by
  constructor
  · obtain ⟨M, h1, h2, h3, _⟩ := lidarToNumpy_spec
      ⟨[⟨"x", 0, 2⟩, ⟨"i", 2, 4⟩], [9, 99, 100, 0, 7, 99, 1, 1], 4⟩ ["x", "i"] 2
      (by norm_num) (by decide)
      (by
        intro n hn
        simp only [List.mem_cons, List.not_mem_nil, or_false] at hn
        rcases hn with rfl | rfl
        · exact ⟨⟨"x", 0, 2⟩, 1, by decide, by decide, by norm_num⟩
        · exact ⟨⟨"i", 2, 4⟩, 2, by decide, by decide, by norm_num⟩)
    exact ⟨M, h1, by simpa using h2, by simpa using h3⟩
  · obtain ⟨M0, h1, h2, _, _⟩ := lidarToNumpy_spec ⟨[⟨"x", 0, 7⟩], [], 4⟩ ["x"] 0
      (by norm_num) (by decide)
      (by
        intro n hn
        simp only [List.mem_cons, List.not_mem_nil, or_false] at hn
        subst hn
        exact ⟨⟨"x", 0, 7⟩, 4, by decide, by decide, by norm_num⟩)
    exact ⟨M0, h1, h2⟩

/-! ### Gap-triggered flush discipline (C6) -/

/-- **C6**: (a) a flush is triggered for an incoming lidar/camera message iff
a last-seen timestamp exists for that same topic and
`currentTimestamp - lastTimestamp > maxGap`; (b) when triggered, the flush
runs on the state *before* the new message is appended, and the new entry is
appended (and the topic's last-seen timestamp set) on the flushed state;
(c) when not triggered the message is simply buffered and no sample is
emitted; (d) immediately after any flush both chunk buffers are empty and
both last-seen timestamps are cleared, while the transform cache is left
unchanged; (e) transform-topic messages only update the cache — they never
trigger a flush, touch the buffers, or emit samples. -/
theorem processMessage_flush_discipline {P T M : Type _}
    (getTransforms : P → List (TFStamped T)) (transformToMatrix : T → M)
    (interpolateMx : M → M → ℚ → M) :
    (∀ (s : SyncState P M) (topic : String) (ts : ℚ),
        checkFlushConstraint s topic ts = true ↔
          ∃ last, lastTimestampFor s topic = some last ∧ s.maxGap < ts - last) ∧
    (∀ (s : SyncState P M) (m : StreamMessage P),
        (m.topic = LIDAR_TOPIC ∨ m.topic = CAMERA_IMAGE_TOPIC) →
        checkFlushConstraint s m.topic m.timestamp = true →
        processMessage getTransforms transformToMatrix interpolateMx s m =
          (setLastTimestamp
            (appendToBuffer (flushSamples interpolateMx s).1 m.topic
              ⟨m.timestamp, m.msg⟩)
            m.topic m.timestamp,
           (flushSamples interpolateMx s).2)) ∧
    (∀ (s : SyncState P M) (m : StreamMessage P),
        (m.topic = LIDAR_TOPIC ∨ m.topic = CAMERA_IMAGE_TOPIC) →
        checkFlushConstraint s m.topic m.timestamp = false →
        processMessage getTransforms transformToMatrix interpolateMx s m =
          (setLastTimestamp (appendToBuffer s m.topic ⟨m.timestamp, m.msg⟩)
            m.topic m.timestamp, [])) ∧
    (∀ s : SyncState P M,
        (flushSamples interpolateMx s).1.lidarBuffer = [] ∧
        (flushSamples interpolateMx s).1.cameraBuffer = [] ∧
        (flushSamples interpolateMx s).1.lastLidarTs = none ∧
        (flushSamples interpolateMx s).1.lastCameraTs = none ∧
        (flushSamples interpolateMx s).1.tfCache = s.tfCache) ∧
    (∀ (s : SyncState P M) (m : StreamMessage P), m.topic = TF_TOPIC →
        (processMessage getTransforms transformToMatrix interpolateMx s m).2 = [] ∧
        (processMessage getTransforms transformToMatrix interpolateMx s m).1.lidarBuffer
          = s.lidarBuffer ∧
        (processMessage getTransforms transformToMatrix interpolateMx s m).1.cameraBuffer
          = s.cameraBuffer ∧
        (processMessage getTransforms transformToMatrix interpolateMx s m).1.lastLidarTs
          = s.lastLidarTs ∧
        (processMessage getTransforms transformToMatrix interpolateMx s m).1.lastCameraTs
          = s.lastCameraTs ∧
        (processMessage getTransforms transformToMatrix interpolateMx s m).1.tfCache
          = updateTFCache getTransforms transformToMatrix s.tfCache
              ⟨m.timestamp, m.msg⟩) := by
  have hlidar_ne : LIDAR_TOPIC ≠ TF_TOPIC := by decide
  have hcam_ne : CAMERA_IMAGE_TOPIC ≠ TF_TOPIC := by decide
  refine ⟨?_, ?_, ?_, ?_, ?_⟩
  · intro s topic ts
    unfold checkFlushConstraint
    cases h : lastTimestampFor s topic with
    | none => simp
    | some last => simp [gt_iff_lt]
  · intro s m htopic hflush
    unfold processMessage
    rcases htopic with h | h
    · rw [h, if_neg hlidar_ne, if_pos (Or.inl rfl)]
      rw [← h, hflush]
      simp
    · rw [h, if_neg hcam_ne, if_pos (Or.inr rfl)]
      rw [← h, hflush]
      simp
  · intro s m htopic hflush
    unfold processMessage
    rcases htopic with h | h
    · rw [h, if_neg hlidar_ne, if_pos (Or.inl rfl)]
      rw [← h, hflush]
      simp
    · rw [h, if_neg hcam_ne, if_pos (Or.inr rfl)]
      rw [← h, hflush]
      simp
  · intro s
    exact ⟨rfl, rfl, rfl, rfl, rfl⟩
  · intro s m htopic
    have hred : processMessage getTransforms transformToMatrix interpolateMx s m =
        ({ s with
            tfCache := updateTFCache getTransforms transformToMatrix s.tfCache
              ⟨m.timestamp, m.msg⟩ },
         []) := by
      unfold processMessage
      rw [htopic, if_pos rfl]
    rw [hred]
    exact ⟨rfl, rfl, rfl, rfl, rfl, rfl⟩

/-- Witness for `processMessage_flush_discipline`: the spec's gap scenario —
`maxGap = 0.15`, a lidar message at `t = 0` already buffered, a second lidar
message at `t = 0.30` — triggers a flush (the unpaired entry is dropped) and
the buffers afterwards hold exactly the new message. -/
theorem processMessage_flush_discipline_witness :
    processMessage (fun _ : Unit => ([] : List (TFStamped Unit))) (fun t : Unit => t)
      (fun _ _ _ => ())
      ⟨5/100, 15/100, [⟨0, ()⟩], [], some 0, none, []⟩
      ⟨LIDAR_TOPIC, (), 3/10⟩ =
    (⟨5/100, 15/100, [⟨3/10, ()⟩], [], some (3/10), none, []⟩, []) := by
  rw [(processMessage_flush_discipline (fun _ : Unit => ([] : List (TFStamped Unit)))
      (fun t : Unit => t) (fun _ _ _ => ())).2.1
    ⟨5/100, 15/100, [⟨0, ()⟩], [], some 0, none, []⟩
    ⟨LIDAR_TOPIC, (), 3/10⟩ (Or.inl rfl)
    (by unfold checkFlushConstraint lastTimestampFor; norm_num)]
  unfold flushSamples setLastTimestamp appendToBuffer
  norm_num
  simp [pairLidarEntry, findClosestFrame]

/-! ### Lidar-camera pairing at flush (C2) -/

/-- The running-minimum loop of `findClosestFrame`, started on an accumulator
holding entry `e`, returns the entry of `e :: frames` with the smallest
absolute timestamp difference, keeping the earliest position on ties. -/
theorem findClosestFrameAux_spec {P : Type _} (targetTimestamp : ℚ) :
    ∀ (frames : List (ChunkEntry P)) (e : ChunkEntry P),
      ∃ (i : Nat) (c : ChunkEntry P), (e :: frames)[i]? = some c ∧
        findClosestFrameAux targetTimestamp frames (some e)
            ((|e.timestamp - targetTimestamp| : ℚ) : WithTop ℚ) =
          (some c, ((|c.timestamp - targetTimestamp| : ℚ) : WithTop ℚ)) ∧
        (∀ (j : ℕ) (d : ChunkEntry P), (e :: frames)[j]? = some d →
          |c.timestamp - targetTimestamp| ≤ |d.timestamp - targetTimestamp|) ∧
        (∀ (j : ℕ) (d : ChunkEntry P), j < i → (e :: frames)[j]? = some d →
          |c.timestamp - targetTimestamp| < |d.timestamp - targetTimestamp|) := by
  intro frames
  induction frames with
  | nil =>
    intro e
    refine ⟨0, e, by simp, rfl, ?_, ?_⟩
    · intro j d hj
      cases j with
      | zero =>
        rw [List.getElem?_cons_zero, Option.some.injEq] at hj
        subst hj
        exact le_refl _
      | succ j' => simp at hj
    · intro j d hj
      omega
  | cons f rest ih =>
    intro e
    rw [findClosestFrameAux]
    by_cases hlt : ((|f.timestamp - targetTimestamp| : ℚ) : WithTop ℚ) <
        ((|e.timestamp - targetTimestamp| : ℚ) : WithTop ℚ)
    · rw [if_pos hlt]
      have hlt' : |f.timestamp - targetTimestamp| < |e.timestamp - targetTimestamp| := by
        exact_mod_cast hlt
      obtain ⟨i, c, hget, heq, hmin, hstrict⟩ := ih f
      have hminf : |c.timestamp - targetTimestamp| ≤ |f.timestamp - targetTimestamp| :=
        hmin 0 f (by rw [List.getElem?_cons_zero])
      refine ⟨i + 1, c, by rw [List.getElem?_cons_succ]; exact hget, heq, ?_, ?_⟩
      · intro j d hj
        cases j with
        | zero =>
          rw [List.getElem?_cons_zero, Option.some.injEq] at hj
          subst hj
          exact le_of_lt (lt_of_le_of_lt hminf hlt')
        | succ j' =>
          rw [List.getElem?_cons_succ] at hj
          exact hmin j' d hj
      · intro j d hjlt hj
        cases j with
        | zero =>
          rw [List.getElem?_cons_zero, Option.some.injEq] at hj
          subst hj
          exact lt_of_le_of_lt hminf hlt'
        | succ j' =>
          rw [List.getElem?_cons_succ] at hj
          exact hstrict j' d (by omega) hj
    · rw [if_neg hlt]
      have hle' : |e.timestamp - targetTimestamp| ≤ |f.timestamp - targetTimestamp| := by
        have := not_lt.mp hlt
        exact_mod_cast this
      obtain ⟨i, c, hget, heq, hmin, hstrict⟩ := ih e
      have hmine : |c.timestamp - targetTimestamp| ≤ |e.timestamp - targetTimestamp| :=
        hmin 0 e (by rw [List.getElem?_cons_zero])
      cases i with
      | zero =>
        rw [List.getElem?_cons_zero, Option.some.injEq] at hget
        refine ⟨0, c, by rw [List.getElem?_cons_zero, hget], heq, ?_, ?_⟩
        · intro j d hj
          cases j with
          | zero =>
            rw [List.getElem?_cons_zero, Option.some.injEq] at hj
            subst hj
            rw [hget]
          | succ j' =>
            cases j' with
            | zero =>
              rw [List.getElem?_cons_succ, List.getElem?_cons_zero,
                Option.some.injEq] at hj
              subst hj
              exact le_trans hmine hle'
            | succ j'' =>
              rw [List.getElem?_cons_succ, List.getElem?_cons_succ] at hj
              exact hmin (j'' + 1) d (by rw [List.getElem?_cons_succ]; exact hj)
        · intro j d hjlt hj
          omega
      | succ i' =>
        rw [List.getElem?_cons_succ] at hget
        refine ⟨i' + 2, c, ?_, heq, ?_, ?_⟩
        · rw [List.getElem?_cons_succ, List.getElem?_cons_succ]
          exact hget
        · intro j d hj
          cases j with
          | zero =>
            rw [List.getElem?_cons_zero, Option.some.injEq] at hj
            subst hj
            exact hmine
          | succ j' =>
            cases j' with
            | zero =>
              rw [List.getElem?_cons_succ, List.getElem?_cons_zero,
                Option.some.injEq] at hj
              subst hj
              exact le_trans hmine hle'
            | succ j'' =>
              rw [List.getElem?_cons_succ, List.getElem?_cons_succ] at hj
              exact hmin (j'' + 1) d (by rw [List.getElem?_cons_succ]; exact hj)
        · intro j d hjlt hj
          have hstricte : |c.timestamp - targetTimestamp| <
              |e.timestamp - targetTimestamp| :=
            hstrict 0 e (by omega) (by rw [List.getElem?_cons_zero])
          cases j with
          | zero =>
            rw [List.getElem?_cons_zero, Option.some.injEq] at hj
            subst hj
            exact hstricte
          | succ j' =>
            cases j' with
            | zero =>
              rw [List.getElem?_cons_succ, List.getElem?_cons_zero,
                Option.some.injEq] at hj
              subst hj
              exact lt_of_lt_of_le hstricte hle'
            | succ j'' =>
              rw [List.getElem?_cons_succ, List.getElem?_cons_succ] at hj
              exact hstrict (j'' + 1) d (by omega)
                (by rw [List.getElem?_cons_succ]; exact hj)

/-- `findClosestFrame` on a non-empty buffer returns the entry minimizing the
absolute timestamp difference; among equal minima it keeps the earliest
buffer position. -/
theorem findClosestFrame_spec {P : Type _} (targetTimestamp : ℚ)
    (frames : List (ChunkEntry P)) (hne : frames ≠ []) :
    ∃ (i : ℕ) (c : ChunkEntry P), frames[i]? = some c ∧
      findClosestFrame targetTimestamp frames = some c ∧
      (∀ (j : ℕ) (d : ChunkEntry P), frames[j]? = some d →
        |c.timestamp - targetTimestamp| ≤ |d.timestamp - targetTimestamp|) ∧
      (∀ (j : ℕ) (d : ChunkEntry P), j < i → frames[j]? = some d →
        |c.timestamp - targetTimestamp| < |d.timestamp - targetTimestamp|) := by
  cases frames with
  | nil => exact absurd rfl hne
  | cons f rest =>
    obtain ⟨i, c, hget, heq, hmin, hstrict⟩ :=
      findClosestFrameAux_spec targetTimestamp rest f
    refine ⟨i, c, hget, ?_, hmin, hstrict⟩
    unfold findClosestFrame
    rw [if_neg (by simp)]
    rw [findClosestFrameAux, if_pos (WithTop.coe_lt_top _), heq]

/-- **C2**: at flush, (a) the emitted fused samples are exactly the
per-lidar-entry pairing results over the lidar buffer, in buffer order;
(b) an empty camera buffer pairs nothing; (c) on a non-empty camera buffer
the paired camera entry minimizes the absolute timestamp difference, with
ties resolved by the earliest buffer position (every strictly earlier entry
has a strictly larger difference); (d) a lidar entry yields no fused sample
(and no error) exactly when the camera buffer is empty or the minimal
difference strictly exceeds `syncThreshold` — so a difference exactly equal
to `syncThreshold` is accepted. -/
theorem flush_pairs_closest_camera {P M : Type _} (interpolateMx : M → M → ℚ → M) :
    (∀ s : SyncState P M, (flushSamples interpolateMx s).2 =
        s.lidarBuffer.filterMap
          (pairLidarEntry interpolateMx s.syncThreshold s.cameraBuffer s.tfCache)) ∧
    (∀ t : ℚ, findClosestFrame t ([] : List (ChunkEntry P)) = none) ∧
    (∀ (t : ℚ) (frames : List (ChunkEntry P)), frames ≠ [] →
      ∃ (i : ℕ) (c : ChunkEntry P), frames[i]? = some c ∧
        findClosestFrame t frames = some c ∧
        (∀ (j : ℕ) (d : ChunkEntry P), frames[j]? = some d →
          |c.timestamp - t| ≤ |d.timestamp - t|) ∧
        (∀ (j : ℕ) (d : ChunkEntry P), j < i → frames[j]? = some d →
          |c.timestamp - t| < |d.timestamp - t|)) ∧
    (∀ (thr : ℚ) (cams : List (ChunkEntry P))
        (cache : List (String × List (TFEntry M))) (le : ChunkEntry P),
        pairLidarEntry interpolateMx thr cams cache le = none ↔
          cams = [] ∨ ∀ c : ChunkEntry P, findClosestFrame le.timestamp cams = some c →
            thr < |le.timestamp - c.timestamp|) := by
  refine ⟨fun s => rfl, fun t => rfl, findClosestFrame_spec, ?_⟩
  intro thr cams cache le
  unfold pairLidarEntry
  cases hclosest : findClosestFrame le.timestamp cams with
  | none =>
    have hnil : cams = [] := by
      by_contra hne
      obtain ⟨i, c, _, heq, _, _⟩ := findClosestFrame_spec le.timestamp cams hne
      rw [hclosest] at heq
      exact Option.noConfusion heq
    simp [hnil]
  | some c =>
    have hne : cams ≠ [] := by
      intro hnil
      subst hnil
      exact Option.noConfusion hclosest
    change (if |le.timestamp - c.timestamp| > thr then (none : Option (FusedSample P M))
      else some ⟨le, c, interpolateTransforms interpolateMx cache le.timestamp,
        le.timestamp⟩) = none ↔ _
    by_cases hgt : |le.timestamp - c.timestamp| > thr
    · rw [if_pos hgt]
      constructor
      · intro _
        right
        intro c' hc'
        rw [Option.some.injEq] at hc'
        subst hc'
        exact hgt
      · intro _
        rfl
    · rw [if_neg hgt]
      constructor
      · intro h
        exact Option.noConfusion h
      · intro hcase
        rcases hcase with hnil | hall
        · exact absurd hnil hne
        · exact absurd (hall c rfl) hgt

/-- Witness for `flush_pairs_closest_camera` at the spec boundary scenario: a
lidar entry at `t = 0.2` with the (single) camera frame at `t = 0.25` and
`syncThreshold = 0.05` — the difference equals the threshold exactly and the
pair is accepted (a fused sample is produced). -/
theorem flush_pairs_closest_camera_witness :
    pairLidarEntry (P := Unit) (M := Unit) (fun _ _ _ => ()) (5/100)
      [⟨25/100, ()⟩] [] ⟨2/10, ()⟩ ≠ none := by
  intro hnone
  have hiff := (flush_pairs_closest_camera (P := Unit) (M := Unit)
      (fun _ _ _ => ())).2.2.2 (5/100) [⟨25/100, ()⟩] [] ⟨2/10, ()⟩
  rcases hiff.mp hnone with hnil | hall
  · exact List.noConfusion hnil
  · have hfind : findClosestFrame (2/10 : ℚ) [(⟨25/100, ()⟩ : ChunkEntry Unit)] =
        some ⟨25/100, ()⟩ := by
      unfold findClosestFrame findClosestFrameAux
      rw [if_neg (by simp), if_pos (WithTop.coe_lt_top _)]
      rfl
    have hthis := hall ⟨25/100, ()⟩ hfind
    rw [show (2/10 : ℚ) - 25/100 = -(5/100) by norm_num] at hthis
    rw [abs_neg, abs_of_nonneg (by norm_num)] at hthis
    exact lt_irrefl _ hthis

/-! ### The four-case transform query (C3) -/

/-- The scan of `interpolateTransforms` hits an exact-timestamp entry: both
indices land on it (all earlier entries are strictly older). -/
theorem scan_exact {M : Type _} (T : ℚ) :
    ∀ (l : List (TFEntry M)) (i : ℕ) (e : TFEntry M) (start : ℕ)
      (b : Option (Nat × TFEntry M)),
      l[i]? = some e → e.timestamp = T →
      (∀ (j : ℕ) (d : TFEntry M), j < i → l[j]? = some d → d.timestamp < T) →
      scanBeforeAfter T l start b = (some (start + i, e), some (start + i, e)) := by
  intro l
  induction l with
  | nil => intro i e start b hi; simp at hi
  | cons f rest ih =>
    intro i e start b hi he hpre
    cases i with
    | zero =>
      rw [List.getElem?_cons_zero, Option.some.injEq] at hi
      subst hi
      rw [scanBeforeAfter]
      simp only [he, le_refl, if_pos, ge_iff_le, Nat.add_zero]
    | succ i' =>
      rw [List.getElem?_cons_succ] at hi
      have hf : f.timestamp < T :=
        hpre 0 f (by omega) (by rw [List.getElem?_cons_zero])
      rw [scanBeforeAfter]
      simp only [le_of_lt hf, if_pos, ge_iff_le, not_le.mpr hf, if_false]
      rw [ih i' e (start + 1) _ hi he
        (fun j d hj hjd => hpre (j + 1) d (by omega)
          (by rw [List.getElem?_cons_succ]; exact hjd))]
      have harith : start + 1 + i' = start + (i' + 1) := by omega
      rw [harith]

theorem scan_between {M : Type _} (T : ℚ) :
    ∀ (l : List (TFEntry M)) (i : ℕ) (eb ea : TFEntry M) (start : ℕ)
      (b : Option (Nat × TFEntry M)),
      l[i]? = some eb → l[i+1]? = some ea →
      (∀ (j : ℕ) (d : TFEntry M), j ≤ i → l[j]? = some d → d.timestamp < T) →
      T < ea.timestamp →
      scanBeforeAfter T l start b =
        (some (start + i, eb), some (start + i + 1, ea)) := by
  intro l
  induction l with
  | nil => intro i eb ea start b hi; simp at hi
  | cons f rest ih =>
    intro i eb ea start b hi hi1 hpre hea
    have hf : f.timestamp < T :=
      hpre 0 f (by omega) (by rw [List.getElem?_cons_zero])
    cases i with
    | zero =>
      rw [List.getElem?_cons_zero, Option.some.injEq] at hi
      subst hi
      rw [List.getElem?_cons_succ] at hi1
      rw [scanBeforeAfter]
      simp only [le_of_lt hf, if_pos, ge_iff_le, not_le.mpr hf, if_false]
      cases rest with
      | nil => simp at hi1
      | cons g rest' =>
        rw [List.getElem?_cons_zero, Option.some.injEq] at hi1
        subst hi1
        rw [scanBeforeAfter]
        simp only [not_le.mpr hea, if_false, ge_iff_le, le_of_lt hea, if_pos]
        simp
    | succ i' =>
      rw [List.getElem?_cons_succ] at hi
      rw [List.getElem?_cons_succ] at hi1
      rw [scanBeforeAfter]
      simp only [le_of_lt hf, if_pos, ge_iff_le, not_le.mpr hf, if_false]
      rw [ih i' eb ea (start + 1) _ hi hi1
        (fun j d hj hjd => hpre (j + 1) d (by omega)
          (by rw [List.getElem?_cons_succ]; exact hjd)) hea]
      have h1 : start + 1 + i' = start + (i' + 1) := by omega
      rw [h1]

theorem scan_after_all {M : Type _} (T : ℚ) :
    ∀ (l : List (TFEntry M)) (lastE : TFEntry M) (start : ℕ)
      (b : Option (Nat × TFEntry M)),
      l.getLast? = some lastE →
      (∀ d ∈ l, d.timestamp < T) →
      scanBeforeAfter T l start b =
        (some (start + l.length - 1, lastE), none) := by
  intro l
  induction l with
  | nil => intro lastE start b hl; simp at hl
  | cons f rest ih =>
    intro lastE start b hl hall
    have hf : f.timestamp < T := hall f (by simp)
    rw [scanBeforeAfter]
    simp only [le_of_lt hf, if_pos, ge_iff_le, not_le.mpr hf, if_false]
    cases rest with
    | nil =>
      rw [List.getLast?_singleton, Option.some.injEq] at hl
      subst hl
      rw [scanBeforeAfter]
      simp
    | cons g rest' =>
      rw [List.getLast?_cons_cons] at hl
      rw [ih lastE (start + 1) _ hl (fun d hd => hall d (by simp [hd]))]
      have h1 : start + 1 + (g :: rest').length - 1 =
          start + (f :: g :: rest').length - 1 := by
        simp only [List.length_cons]
        omega
      rw [h1]

theorem scan_before_all {M : Type _} (T : ℚ) (f : TFEntry M)
    (rest : List (TFEntry M)) (start : ℕ) (hf : T < f.timestamp) :
    scanBeforeAfter T (f :: rest) start none = (none, some (start, f)) := by
  rw [scanBeforeAfter]
  simp only [not_le.mpr hf, if_false, ge_iff_le, le_of_lt hf, if_pos]

/-- Lookup misses in the result of `interpolateTransforms` for a key not in
the cache. -/
theorem interpolateTransforms_lookup_notmem {M : Type _}
    (interpolateMx : M → M → ℚ → M) (T : ℚ) (key : String) :
    ∀ cache : List (String × List (TFEntry M)), (∀ p ∈ cache, p.1 ≠ key) →
      assocGet (interpolateTransforms interpolateMx cache T) key = none := by
  intro cache
  induction cache with
  | nil => intro _; rfl
  | cons p t ih =>
    intro hmem
    unfold interpolateTransforms
    rw [List.filterMap_cons]
    cases hk : (interpolateTransformsKey interpolateMx T p.2).map fun m => (p.1, m) with
    | none => exact ih fun q hq => hmem q (List.mem_cons_of_mem _ hq)
    | some q =>
      obtain ⟨m, _, hq⟩ := Option.map_eq_some'.mp hk
      rw [← hq]
      rw [assocGet_cons, if_neg (hmem p (List.mem_cons_self _ _))]
      exact ih fun r hr => hmem r (List.mem_cons_of_mem _ hr)

/-- Lookup in the result of `interpolateTransforms` agrees with the per-key
query, for caches with distinct keys (all caches built by `updateTFCache`). -/
theorem interpolateTransforms_lookup {M : Type _}
    (interpolateMx : M → M → ℚ → M) (T : ℚ) :
    ∀ (cache : List (String × List (TFEntry M))) (key : String)
      (tfList : List (TFEntry M)), (cache.map Prod.fst).Nodup →
      assocGet cache key = some tfList →
      assocGet (interpolateTransforms interpolateMx cache T) key =
        interpolateTransformsKey interpolateMx T tfList := by
  intro cache
  induction cache with
  | nil => intro key tfList _ hget; simp at hget
  | cons p t ih =>
    intro key tfList hnodup hget
    rw [assocGet_cons] at hget
    have hnd := hnodup
    rw [List.map_cons, List.nodup_cons] at hnd
    unfold interpolateTransforms
    rw [List.filterMap_cons]
    by_cases hpk : p.1 = key
    · rw [if_pos hpk, Option.some.injEq] at hget
      subst hget
      cases hk : interpolateTransformsKey interpolateMx T p.2 with
      | none =>
        simp only [hk, Option.map_none']
        exact interpolateTransforms_lookup_notmem interpolateMx T key t
          fun q hq hqk => hnd.1 (by
            rw [← hpk] at hqk
            exact hqk ▸ List.mem_map_of_mem Prod.fst hq)
      | some m =>
        simp only [hk, Option.map_some']
        rw [assocGet_cons, if_pos hpk]
    · rw [if_neg hpk] at hget
      cases hk : interpolateTransformsKey interpolateMx T p.2 with
      | none =>
        simp only [hk, Option.map_none']
        exact ih key tfList hnd.2 hget
      | some m =>
        simp only [hk, Option.map_some']
        rw [assocGet_cons, if_neg hpk]
        exact ih key tfList hnd.2 hget

/-- **C3**: the transform query at target timestamp `T` over a
timestamp-ordered cached history behaves by exactly four cases: an
exact-timestamp entry is returned as-is; a `T` strictly between two adjacent
entries interpolates them with
`alpha = clamp((T - beforeTs)/(afterTs - beforeTs), 0, 1)`; a `T` after all
entries returns the latest entry unchanged (no forward extrapolation); a `T`
before all entries returns the earliest entry unchanged (no backward
extrapolation); and an empty history yields no result — the key is omitted
from the result mapping. -/
theorem transform_query_cases {M : Type _} (interpolateMx : M → M → ℚ → M)
    (T : ℚ) :
    (interpolateTransformsKey interpolateMx T ([] : List (TFEntry M)) = none) ∧
    (∀ (cache : List (String × List (TFEntry M))) (key : String)
        (tfList : List (TFEntry M)), (cache.map Prod.fst).Nodup →
        assocGet cache key = some tfList →
        assocGet (interpolateTransforms interpolateMx cache T) key =
          interpolateTransformsKey interpolateMx T tfList) ∧
    (∀ tfList : List (TFEntry M),
        tfList.Pairwise (fun a b => a.timestamp < b.timestamp) →
        ∀ (i : ℕ) (e : TFEntry M), tfList[i]? = some e → e.timestamp = T →
        interpolateTransformsKey interpolateMx T tfList = some e.tfMatrix) ∧
    (∀ tfList : List (TFEntry M),
        tfList.Pairwise (fun a b => a.timestamp < b.timestamp) →
        ∀ (i : ℕ) (eb ea : TFEntry M),
        tfList[i]? = some eb → tfList[i+1]? = some ea →
        eb.timestamp < T → T < ea.timestamp →
        interpolateTransformsKey interpolateMx T tfList =
          some (interpolateMx eb.tfMatrix ea.tfMatrix
            (min (max ((T - eb.timestamp) / (ea.timestamp - eb.timestamp)) 0) 1))) ∧
    (∀ (tfList : List (TFEntry M)) (lastE : TFEntry M),
        tfList.getLast? = some lastE →
        (∀ d ∈ tfList, d.timestamp < T) →
        interpolateTransformsKey interpolateMx T tfList = some lastE.tfMatrix) ∧
    (∀ (tfList : List (TFEntry M)) (headE : TFEntry M),
        tfList.head? = some headE →
        (∀ d ∈ tfList, T < d.timestamp) →
        interpolateTransformsKey interpolateMx T tfList = some headE.tfMatrix) := by
  refine ⟨rfl, interpolateTransforms_lookup interpolateMx T, ?_, ?_, ?_, ?_⟩
  · -- exact hit
    intro tfList hsorted i e hi he
    have hpre : ∀ (j : ℕ) (d : TFEntry M), j < i → tfList[j]? = some d →
        d.timestamp < T := by
      intro j d hj hjd
      obtain ⟨hjlen, hjd'⟩ := List.getElem?_eq_some.mp hjd
      obtain ⟨hilen, hi'⟩ := List.getElem?_eq_some.mp hi
      have := (List.pairwise_iff_getElem.mp hsorted) j i hjlen hilen hj
      rw [hjd', hi'] at this
      rw [← he]
      exact this
    unfold interpolateTransformsKey
    rw [scan_exact T tfList i e 0 none hi he hpre]
    simp
  · -- strictly between two adjacent entries
    intro tfList hsorted i eb ea hi hi1 hb ha
    have hpre : ∀ (j : ℕ) (d : TFEntry M), j ≤ i → tfList[j]? = some d →
        d.timestamp < T := by
      intro j d hj hjd
      rcases Nat.lt_or_ge j i with hlt | hge
      · obtain ⟨hjlen, hjd'⟩ := List.getElem?_eq_some.mp hjd
        obtain ⟨hilen, hi'⟩ := List.getElem?_eq_some.mp hi
        have := (List.pairwise_iff_getElem.mp hsorted) j i hjlen hilen hlt
        rw [hjd', hi'] at this
        exact lt_trans this hb
      · have hji : j = i := by omega
        subst hji
        rw [hi, Option.some.injEq] at hjd
        subst hjd
        exact hb
    unfold interpolateTransformsKey
    rw [scan_between T tfList i eb ea 0 none hi hi1 hpre ha]
    simp only [Nat.zero_add]
    rw [if_neg (by omega)]
  · -- after all entries
    intro tfList lastE hlast hall
    unfold interpolateTransformsKey
    rw [scan_after_all T tfList lastE 0 none hlast hall]
  · -- before all entries
    intro tfList headE hhead hall
    cases tfList with
    | nil => simp at hhead
    | cons f rest =>
      rw [List.head?_eq_head (by simp), Option.some.injEq] at hhead
      subst hhead
      unfold interpolateTransformsKey
      rw [scan_before_all T _ rest 0 (hall _ (by simp))]
      rfl

/-- Witness for `transform_query_cases` on the three-entry history
`[1, 5, 9]` (matrices tagged by naturals): `T = 5` returns the exact entry,
`T = 20` returns the latest entry, `T = 0` returns the earliest one. -/
theorem transform_query_cases_witness :
    (interpolateTransformsKey (M := ℕ) (fun a _ _ => a) 5
      [⟨1, 10⟩, ⟨5, 20⟩, ⟨9, 30⟩] = some 20) ∧
    (interpolateTransformsKey (M := ℕ) (fun a _ _ => a) 20
      [⟨1, 10⟩, ⟨5, 20⟩, ⟨9, 30⟩] = some 30) ∧
    (interpolateTransformsKey (M := ℕ) (fun a _ _ => a) 0
      [⟨1, 10⟩, ⟨5, 20⟩, ⟨9, 30⟩] = some 10) := by
  have hsorted : ([⟨1, 10⟩, ⟨5, 20⟩, ⟨9, 30⟩] : List (TFEntry ℕ)).Pairwise
      (fun a b => a.timestamp < b.timestamp) := by
    refine List.Pairwise.cons ?_ (List.Pairwise.cons ?_ (List.pairwise_singleton _ _))
    · intro b hb
      simp only [List.mem_cons, List.not_mem_nil, or_false] at hb
      rcases hb with rfl | rfl <;> norm_num
    · intro b hb
      simp only [List.mem_cons, List.not_mem_nil, or_false] at hb
      subst hb
      norm_num
  refine ⟨?_, ?_, ?_⟩
  · exact (transform_query_cases (M := ℕ) (fun a _ _ => a) 5).2.2.1
      [⟨1, 10⟩, ⟨5, 20⟩, ⟨9, 30⟩] hsorted 1 ⟨5, 20⟩ (by rfl) (by norm_num)
  · exact (transform_query_cases (M := ℕ) (fun a _ _ => a) 20).2.2.2.2.1
      [⟨1, 10⟩, ⟨5, 20⟩, ⟨9, 30⟩] ⟨9, 30⟩ (by rfl)
      (by
        intro d hd
        simp only [List.mem_cons, List.not_mem_nil, or_false] at hd
        rcases hd with rfl | rfl | rfl <;> norm_num)
  · exact (transform_query_cases (M := ℕ) (fun a _ _ => a) 0).2.2.2.2.2
      [⟨1, 10⟩, ⟨5, 20⟩, ⟨9, 30⟩] ⟨1, 10⟩ (by rfl)
      (by
        intro d hd
        simp only [List.mem_cons, List.not_mem_nil, or_false] at hd
        rcases hd with rfl | rfl | rfl <;> norm_num)

/-! ### The writer's dense-packing invariant (C1) -/

theorem writeOne_fields {P I T : Type _} [Inhabited P] [Inhabited T]
    (s : WriterState P I T) (globalIndex : Nat) (sample : WSample P I T) :
    (writeOne s globalIndex sample).offsets =
      s.offsets.set globalIndex s.lidarPointOffset ∧
    (writeOne s globalIndex sample).counts =
      s.counts.set globalIndex sample.lidarData.length ∧
    (writeOne s globalIndex sample).lidarPointOffset =
      s.lidarPointOffset + sample.lidarData.length ∧
    (writeOne s globalIndex sample).numSamples = s.numSamples ∧
    (writeOne s globalIndex sample).tfDatasets = sample.transforms.foldl
      (fun tfds kv => writeTFKey tfds globalIndex kv) s.tfDatasets := by
  refine ⟨?_, ?_, ?_, ?_, ?_⟩ <;>
    simp only [writeOne, resizeLidarData] <;>
    first
      | rfl
      | (split <;> rfl)

theorem getD_set_self {α : Type _} (l : List α) (i : Nat) (a d : α) (h : i < l.length) :
    (l.set i a).getD i d = a := by
  rw [List.getD_eq_getElem?_getD, List.getElem?_set_eq h]
  rfl

theorem getD_set_ne {α : Type _} (l : List α) (i j : Nat) (a d : α) (h : i ≠ j) :
    (l.set i a).getD j d = l.getD j d := by
  rw [List.getD_eq_getElem?_getD, List.getElem?_set_ne h, ← List.getD_eq_getElem?_getD]

/-- One `writeOne` step extends the dense-packing region by one sample. -/
theorem writeOne_packed {P I T : Type _} [Inhabited P] [Inhabited T]
    (s : WriterState P I T) (gi : Nat) (sample : WSample P I T)
    (hoff : gi < s.offsets.length) (hcnt : gi < s.counts.length)
    (hpacked : densePackedUpTo s.offsets s.counts s.lidarPointOffset gi) :
    densePackedUpTo (writeOne s gi sample).offsets (writeOne s gi sample).counts
      (writeOne s gi sample).lidarPointOffset (gi + 1) := by
  obtain ⟨ho, hc, hcur, _, _⟩ := writeOne_fields s gi sample
  rw [ho, hc, hcur]
  obtain ⟨hadj, hlink, hzero⟩ := hpacked
  refine ⟨?_, ?_, ?_⟩
  · intro i hi
    by_cases hig : i + 1 = gi
    · subst hig
      rw [getD_set_self _ _ _ _ hoff]
      rw [getD_set_ne _ _ _ _ _ (by omega), getD_set_ne _ _ _ _ _ (by omega)]
      have hl := hlink (by omega)
      simp only [Nat.add_sub_cancel] at hl
      exact hl.symm
    · have hilt : i + 1 < gi := by omega
      rw [getD_set_ne _ _ _ _ _ (by omega), getD_set_ne _ _ _ _ _ (by omega),
        getD_set_ne _ _ _ _ _ (by omega)]
      exact hadj i hilt
  · intro _
    have hg : gi + 1 - 1 = gi := by omega
    rw [hg, getD_set_self _ _ _ _ hoff, getD_set_self _ _ _ _ hcnt]
  · intro h
    omega

/-- The write loop preserves the table lengths and extends the dense-packing
region across the whole batch. -/
theorem writeLoop_packed {P I T : Type _} [Inhabited P] [Inhabited T] :
    ∀ (samples : List (WSample P I T)) (s : WriterState P I T) (gi : Nat),
      gi + samples.length ≤ s.offsets.length →
      gi + samples.length ≤ s.counts.length →
      densePackedUpTo s.offsets s.counts s.lidarPointOffset gi →
      (writeLoop s gi samples).offsets.length = s.offsets.length ∧
      (writeLoop s gi samples).counts.length = s.counts.length ∧
      (writeLoop s gi samples).numSamples = s.numSamples ∧
      densePackedUpTo (writeLoop s gi samples).offsets
        (writeLoop s gi samples).counts
        (writeLoop s gi samples).lidarPointOffset (gi + samples.length) := by
  intro samples
  induction samples with
  | nil =>
    intro s gi _ _ hpacked
    exact ⟨rfl, rfl, rfl, by simpa using hpacked⟩
  | cons smp rest ih =>
    intro s gi hoff hcnt hpacked
    rw [writeLoop]
    obtain ⟨ho, hc, _, hn, _⟩ := writeOne_fields s gi smp
    have hoff1 : gi < s.offsets.length := by
      simp only [List.length_cons] at hoff
      omega
    have hcnt1 : gi < s.counts.length := by
      simp only [List.length_cons] at hcnt
      omega
    have hstep := writeOne_packed s gi smp hoff1 hcnt1 hpacked
    obtain ⟨l1, l2, l3, l4⟩ := ih (writeOne s gi smp) (gi + 1)
      (by rw [ho, List.length_set]; simp only [List.length_cons] at hoff; omega)
      (by rw [hc, List.length_set]; simp only [List.length_cons] at hcnt; omega)
      hstep
    refine ⟨?_, ?_, ?_, ?_⟩
    · rw [l1, ho, List.length_set]
    · rw [l2, hc, List.length_set]
    · rw [l3, hn]
    · have harith : gi + 1 + rest.length = gi + (smp :: rest).length := by
        simp only [List.length_cons]
        omega
      rw [← harith]
      exact l4

theorem length_resizeTo {α : Type _} [Inhabited α] (l : List α) (n : Nat) :
    (resizeTo l n).length = n := by
  unfold resizeTo
  rw [List.length_append, List.length_take, List.length_replicate]
  omega

theorem getD_resizeTo_of_lt {α : Type _} [Inhabited α] (l : List α) (n i : Nat)
    (d : α) (hi : i < l.length) (hn : i < n) :
    (resizeTo l n).getD i d = l.getD i d := by
  unfold resizeTo
  rw [List.getD_eq_getElem?_getD, List.getElem?_append, List.getD_eq_getElem?_getD]
  rw [if_pos (by rw [List.length_take]; omega)]
  rw [List.getElem?_take, if_pos hn]

theorem getD_resizeTo_of_ge {α : Type _} [Inhabited α] (l : List α) (n i : Nat)
    (hi : l.length ≤ i) (hn : i < n) :
    (resizeTo l n).getD i default = default := by
  unfold resizeTo
  rw [List.getD_eq_getElem?_getD, List.getElem?_append]
  rw [if_neg (by rw [List.length_take]; omega)]
  rw [List.length_take]
  cases hrep : (List.replicate (n - l.length) (default : α))[i - min n l.length]? with
  | none => rfl
  | some x =>
    obtain ⟨hlt, hx⟩ := List.getElem?_eq_some.mp hrep
    rw [List.getElem_replicate] at hx
    simp only [Option.getD_some]
    exact hx.symm

/-- `writeBatch` preserves the writer's dense-packing invariant. -/
theorem writeBatch_packed {P I T : Type _} [Inhabited P] [Inhabited I] [Inhabited T]
    (s : WriterState P I T) (samples : List (WSample P I T))
    (hs : writerPacked s) : writerPacked (writeBatch s samples) := by
  cases samples with
  | nil => exact hs
  | cons first rest =>
    rw [writeBatch]
    have hs1 : writerPacked (if s.initialized then s
        else { createDatasets s first with initialized := true }) := by
      split
      · exact hs
      · refine ⟨rfl, rfl, ?_, ?_, fun _ => rfl⟩
        · intro i hi
          simp only [createDatasets] at hi
          omega
        · intro h
          simp only [createDatasets] at h
          omega
    set s1 := if s.initialized then s
      else { createDatasets s first with initialized := true } with hs1def
    obtain ⟨hlo, hlc, hpk⟩ := hs1
    have hlen := (first :: rest).length
    -- after the resize, the tables have the target length and the packed
    -- prefix is untouched
    have hro : (resizeDatasets s1 (s1.numSamples + (first :: rest).length)).offsets =
        resizeTo s1.offsets (s1.numSamples + (first :: rest).length) := rfl
    have hrc : (resizeDatasets s1 (s1.numSamples + (first :: rest).length)).counts =
        resizeTo s1.counts (s1.numSamples + (first :: rest).length) := rfl
    have hrcur : (resizeDatasets s1 (s1.numSamples + (first :: rest).length)).lidarPointOffset
        = s1.lidarPointOffset := rfl
    have hrn : (resizeDatasets s1 (s1.numSamples + (first :: rest).length)).numSamples
        = s1.numSamples := rfl
    have hpk2 : densePackedUpTo
        (resizeDatasets s1 (s1.numSamples + (first :: rest).length)).offsets
        (resizeDatasets s1 (s1.numSamples + (first :: rest).length)).counts
        (resizeDatasets s1 (s1.numSamples + (first :: rest).length)).lidarPointOffset
        s1.numSamples := by
      rw [hro, hrc, hrcur]
      obtain ⟨hadj, hlink, hzero⟩ := hpk
      refine ⟨?_, ?_, hzero⟩
      · intro i hi
        rw [getD_resizeTo_of_lt _ _ _ _ (by omega) (by omega),
          getD_resizeTo_of_lt _ _ _ _ (by omega) (by omega),
          getD_resizeTo_of_lt _ _ _ _ (by omega) (by omega)]
        exact hadj i hi
      · intro hpos
        rw [getD_resizeTo_of_lt _ _ _ _ (by omega) (by omega),
          getD_resizeTo_of_lt _ _ _ _ (by omega) (by omega)]
        exact hlink hpos
    obtain ⟨l1, l2, l3, l4⟩ := writeLoop_packed (first :: rest)
      (resizeDatasets s1 (s1.numSamples + (first :: rest).length)) s1.numSamples
      (by rw [hro, length_resizeTo])
      (by rw [hrc, length_resizeTo])
      hpk2
    refine ⟨?_, ?_, ?_⟩
    · rw [l1, hro, length_resizeTo]
    · rw [l2, hrc, length_resizeTo]
    · exact l4

/-- **C1**: for any sequence of batches written through `writeBatch` by the
same writer instance, the recorded lidar point-pool ranges are densely
packed: the offset and count tables have equal length, every pair of
consecutive samples satisfies `offset_i + count_i = offset_{i+1}`, and the
offsets are monotonically non-decreasing (append-only, no overlap). -/
theorem writer_offsets_densely_packed {P I T : Type _} [Inhabited P] [Inhabited I]
    [Inhabited T] (batches : List (List (WSample P I T))) :
    ((batches.foldl writeBatch (initWriter P I T)).offsets.length =
      (batches.foldl writeBatch (initWriter P I T)).numSamples) ∧
    ((batches.foldl writeBatch (initWriter P I T)).counts.length =
      (batches.foldl writeBatch (initWriter P I T)).offsets.length) ∧
    (∀ i, i + 1 < (batches.foldl writeBatch (initWriter P I T)).offsets.length →
      (batches.foldl writeBatch (initWriter P I T)).offsets.getD (i + 1) 0 =
        (batches.foldl writeBatch (initWriter P I T)).offsets.getD i 0 +
        (batches.foldl writeBatch (initWriter P I T)).counts.getD i 0) ∧
    (∀ i j, i ≤ j → j < (batches.foldl writeBatch (initWriter P I T)).offsets.length →
      (batches.foldl writeBatch (initWriter P I T)).offsets.getD i 0 ≤
        (batches.foldl writeBatch (initWriter P I T)).offsets.getD j 0) := by
  have hfold : ∀ (bs : List (List (WSample P I T))) (s0 : WriterState P I T),
      writerPacked s0 → writerPacked (bs.foldl writeBatch s0) := by
    intro bs
    induction bs with
    | nil => intro s0 h; exact h
    | cons b bs' ih =>
      intro s0 h
      rw [List.foldl_cons]
      exact ih _ (writeBatch_packed s0 b h)
  have hinit : writerPacked (initWriter P I T) := by
    refine ⟨rfl, rfl, ?_, ?_, fun _ => rfl⟩
    · intro i hi
      simp only [initWriter] at hi
      omega
    · intro h
      simp only [initWriter] at h
      omega
  have hpacked : writerPacked (batches.foldl writeBatch (initWriter P I T)) :=
    hfold batches _ hinit
  obtain ⟨hlo, hlc, hadj, hlink, hzero⟩ := hpacked
  refine ⟨hlo, hlc.trans hlo.symm, ?_, ?_⟩
  · intro i hi
    exact hadj i (by omega)
  · have hmono : ∀ j, j < (batches.foldl writeBatch (initWriter P I T)).numSamples →
        ∀ i, i ≤ j →
        (batches.foldl writeBatch (initWriter P I T)).offsets.getD i 0 ≤
          (batches.foldl writeBatch (initWriter P I T)).offsets.getD j 0 := by
      intro j
      induction j with
      | zero =>
        intro _ i hi
        have h0 : i = 0 := by omega
        subst h0
        exact le_refl _
      | succ j' ihj =>
        intro hj i hi
        rcases Nat.eq_or_lt_of_le hi with heq | hlt
        · subst heq
          exact le_refl _
        · have h1 := ihj (by omega) i (by omega)
          have h2 := hadj j' (by omega)
          omega
    intro i j hij hj
    rw [hlo] at hj
    exact hmono j hj i hij

/-- Witness for `writer_offsets_densely_packed`: one batch holding a
two-point sample followed by a one-point sample is densely packed at the
boundary between samples 0 and 1. -/
theorem writer_offsets_densely_packed_witness :
    ([[(⟨1, 0, [(), ()], (), []⟩ : WSample Unit Unit Unit), ⟨2, 0, [()], (), []⟩]].foldl
        writeBatch (initWriter Unit Unit Unit)).offsets.getD 1 0 =
      ([[(⟨1, 0, [(), ()], (), []⟩ : WSample Unit Unit Unit), ⟨2, 0, [()], (), []⟩]].foldl
        writeBatch (initWriter Unit Unit Unit)).offsets.getD 0 0 +
      ([[(⟨1, 0, [(), ()], (), []⟩ : WSample Unit Unit Unit), ⟨2, 0, [()], (), []⟩]].foldl
        writeBatch (initWriter Unit Unit Unit)).counts.getD 0 0 := by
  have h := writer_offsets_densely_packed (P := Unit) (I := Unit) (T := Unit)
    [[⟨1, 0, [(), ()], (), []⟩, ⟨2, 0, [()], (), []⟩]]
  have hnum : ([[(⟨1, 0, [(), ()], (), []⟩ : WSample Unit Unit Unit),
      ⟨2, 0, [()], (), []⟩]].foldl writeBatch (initWriter Unit Unit Unit)).numSamples
      = 2 := rfl
  exact h.2.2.1 0 (by rw [h.1, hnum]; norm_num)

/-! ### Per-key transform datasets: lazy creation and resize (C5) -/

/-- The effect of the per-sample transform loop on lookups: a written key
maps to its (possibly fresh) dataset resized to `globalIndex + 1` with the
matrix written at `globalIndex`; other keys are untouched. -/
theorem foldl_writeTFKey_lookup {T : Type _} [Inhabited T] (gi : Nat) :
    ∀ (kvs : List (String × T)) (tfds : List (String × List T)),
      (kvs.map Prod.fst).Nodup →
      (∀ kv ∈ kvs,
        assocGet (kvs.foldl (fun t kv => writeTFKey t gi kv) tfds) kv.1 =
          some ((resizeTo ((assocGet tfds kv.1).getD []) (gi + 1)).set gi kv.2)) ∧
      (∀ k, (∀ kv ∈ kvs, kv.1 ≠ k) →
        assocGet (kvs.foldl (fun t kv => writeTFKey t gi kv) tfds) k =
          assocGet tfds k) := by
  intro kvs
  induction kvs with
  | nil => exact fun tfds _ => ⟨fun kv hkv => absurd hkv (List.not_mem_nil kv), fun k _ => rfl⟩
  | cons kv rest ih =>
    intro tfds hnodup
    rw [List.map_cons, List.nodup_cons] at hnodup
    obtain ⟨ihmem, ihother⟩ := ih (writeTFKey tfds gi kv) hnodup.2
    have hset : assocGet (writeTFKey tfds gi kv) kv.1 =
        some ((resizeTo ((assocGet tfds kv.1).getD []) (gi + 1)).set gi kv.2) := by
      unfold writeTFKey
      rw [assocGet_assocSet, if_pos rfl]
    have hother : ∀ k, kv.1 ≠ k → assocGet (writeTFKey tfds gi kv) k = assocGet tfds k := by
      intro k hk
      unfold writeTFKey
      rw [assocGet_assocSet, if_neg hk]
    constructor
    · intro kv' hkv'
      rcases List.mem_cons.mp hkv' with rfl | hmem
      · rw [List.foldl_cons]
        rw [ihother kv'.1 (fun q hq hqk => hnodup.1 (hqk ▸ List.mem_map_of_mem Prod.fst hq))]
        exact hset
      · rw [List.foldl_cons]
        have hne : kv.1 ≠ kv'.1 := fun he =>
          hnodup.1 (he ▸ List.mem_map_of_mem Prod.fst hmem)
        rw [ihmem kv' hmem, hother kv'.1 hne]
    · intro k hk
      rw [List.foldl_cons, ihother k (fun q hq => hk q (List.mem_cons_of_mem _ hq)),
        hother k (hk kv (List.mem_cons_self _ _))]

/-- **C5 (amended)**: for every transform key present in the sample being
written at `globalIndex`, the writer lazily creates that key's dataset on
first sight (starting at length 0) and resizes it to `globalIndex + 1` —
zero-filling (with the dataset fill value `default`) any positions for
earlier samples where the key was absent — then writes the new matrix at the
sample's global position.  Consequently the dataset ends at length
`globalIndex + 1`; it has grown by exactly one entry precisely when it
already had length `globalIndex` (the key present in every sample since
first sight).  Keys not in the sample are untouched, so datasets for keys
absent from the most recent samples remain shorter than the main table. -/
theorem tf_dataset_resize_spec {P I T : Type _} [Inhabited P] [Inhabited T]
    (s : WriterState P I T) (gi : Nat) (sample : WSample P I T)
    (hnodup : (sample.transforms.map Prod.fst).Nodup) :
    (∀ kv ∈ sample.transforms, ∃ ds : List T,
      assocGet (writeOne s gi sample).tfDatasets kv.1 = some ds ∧
      ds = (resizeTo ((assocGet s.tfDatasets kv.1).getD []) (gi + 1)).set gi kv.2 ∧
      ds.length = gi + 1 ∧
      ds.getD gi default = kv.2 ∧
      (((assocGet s.tfDatasets kv.1).getD []).length = gi →
        ds.length = ((assocGet s.tfDatasets kv.1).getD []).length + 1) ∧
      (∀ j, ((assocGet s.tfDatasets kv.1).getD []).length ≤ j → j < gi →
        ds.getD j default = default)) ∧
    (∀ k, (∀ kv ∈ sample.transforms, kv.1 ≠ k) →
      assocGet (writeOne s gi sample).tfDatasets k = assocGet s.tfDatasets k) := by
  obtain ⟨_, _, _, _, htf⟩ := writeOne_fields s gi sample
  obtain ⟨hmem, hother⟩ := foldl_writeTFKey_lookup gi sample.transforms s.tfDatasets hnodup
  constructor
  · intro kv hkv
    refine ⟨(resizeTo ((assocGet s.tfDatasets kv.1).getD []) (gi + 1)).set gi kv.2,
      ?_, rfl, ?_, ?_, ?_, ?_⟩
    · rw [htf]
      exact hmem kv hkv
    · rw [List.length_set, length_resizeTo]
    · exact getD_set_self _ _ _ _ (by rw [length_resizeTo]; omega)
    · intro hlen
      rw [List.length_set, length_resizeTo, hlen]
    · intro j hjge hjlt
      rw [getD_set_ne _ _ _ _ _ (by omega)]
      exact getD_resizeTo_of_ge _ _ _ hjge (by omega)
  · intro k hk
    rw [htf]
    exact hother k hk

/-- Witness for `tf_dataset_resize_spec`: a writer whose key `a` holds one
entry (from sample 0) receives sample 2 carrying keys `a` and `b`; the
resulting datasets are `a ↦ [7, 0, 9]` (gap at index 1 zero-filled) and
`b ↦ [0, 0, 4]` (fresh dataset, gap zero-filled), both of length 3. -/
theorem tf_dataset_resize_spec_witness :
    assocGet (writeOne
        (⟨true, 2, 0, [], [], [], [], [], [], [("a", [(7 : ℤ)])]⟩ :
          WriterState Unit Unit ℤ)
        2 ⟨3, 0, [], (), [("a", 9), ("b", 4)]⟩).tfDatasets "a" =
      some [7, 0, 9] := by
  obtain ⟨hmem, _⟩ := tf_dataset_resize_spec
    (⟨true, 2, 0, [], [], [], [], [], [], [("a", [(7 : ℤ)])]⟩ : WriterState Unit Unit ℤ)
    2 ⟨3, 0, [], (), [("a", 9), ("b", 4)]⟩ (by decide)
  obtain ⟨ds, hds, hdef, _, _, _, _⟩ := hmem ("a", 9) (by decide)
  rw [hds, hdef]
  rfl

/-- The write loop acts on the transforms group exactly as
`tfDatasetsAfter`. -/
theorem writeLoop_tfDatasets {P I T : Type _} [Inhabited P] [Inhabited T] :
    ∀ (samples : List (WSample P I T)) (s : WriterState P I T) (gi : Nat),
      (writeLoop s gi samples).tfDatasets = tfDatasetsAfter s.tfDatasets gi samples := by
  intro samples
  induction samples with
  | nil => intro s gi; rfl
  | cons smp rest ih =>
    intro s gi
    rw [writeLoop, ih, tfDatasetsAfter]
    obtain ⟨_, _, _, _, htf⟩ := writeOne_fields s gi smp
    rw [htf]

/-- `writeBatch` acts on the transforms group exactly as `tfDatasetsAfter`
from the (possibly freshly created) transforms group. -/
theorem writeBatch_tfDatasets {P I T : Type _} [Inhabited P] [Inhabited I] [Inhabited T]
    (s : WriterState P I T) (first : WSample P I T) (rest : List (WSample P I T)) :
    (writeBatch s (first :: rest)).tfDatasets =
      tfDatasetsAfter
        ((if s.initialized then s
          else { createDatasets s first with initialized := true }).tfDatasets)
        ((if s.initialized then s
          else { createDatasets s first with initialized := true }).numSamples)
        (first :: rest) := by
  simp only [writeBatch]
  rw [writeLoop_tfDatasets]
  rfl

/-- **C5 counterexample**: the claim "the dataset grows by exactly one entry
[from length 0 on first sight] ... datasets for keys absent from an earlier
sample remain shorter than the main table for that span and are not
backfilled" is false on the code.  Writing a batch whose first sample has no
transforms and whose second sample carries key `a` produces — in one step —
a dataset of length 2 for `a`, equal in length to the main table, with the
gap position backfilled by the zero fill value: `a ↦ [0, 5]`, not `[5]`. -/
theorem tf_dataset_growth_counterexample :
    assocGet (writeBatch (initWriter Unit Unit ℤ)
        [⟨1, 0, [], (), []⟩, ⟨2, 0, [], (), [("a", (5 : ℤ))]⟩]).tfDatasets "a" =
      some [0, 5] ∧
    (assocGet (writeBatch (initWriter Unit Unit ℤ)
        [⟨1, 0, [], (), []⟩, ⟨2, 0, [], (), [("a", (5 : ℤ))]⟩]).tfDatasets "a").map
        List.length ≠ some 1 := by
  rw [writeBatch_tfDatasets]
  constructor
  · rfl
  · rw [show tfDatasetsAfter
        ((if (initWriter Unit Unit ℤ).initialized then initWriter Unit Unit ℤ
          else { createDatasets (initWriter Unit Unit ℤ) ⟨1, 0, [], (), []⟩ with
            initialized := true }).tfDatasets)
        ((if (initWriter Unit Unit ℤ).initialized then initWriter Unit Unit ℤ
          else { createDatasets (initWriter Unit Unit ℤ) ⟨1, 0, [], (), []⟩ with
            initialized := true }).numSamples)
        [(⟨1, 0, [], (), []⟩ : WSample Unit Unit ℤ), ⟨2, 0, [], (), [("a", (5 : ℤ))]⟩]
        = [("a", [0, 5])] from rfl]
    simp [assocGet]

/-! ### Rotation interpolation: quaternion geometry (C4) -/

theorem Quat.normSq_nonneg (q : Quat) : 0 ≤ q.normSq := by
  unfold Quat.normSq
  positivity

theorem Quat.normSq_smul (c : ℝ) (q : Quat) :
    (Quat.smul c q).normSq = c ^ 2 * q.normSq := by
  unfold Quat.normSq Quat.smul
  ring

theorem fin3_mk_two (h : 2 < 3) : (⟨2, h⟩ : Fin 3) = 2 := rfl

theorem quatToMatrix_smul (c : ℝ) (q : Quat) (hc : c ≠ 0) (hq : q.normSq ≠ 0) :
    quatToMatrix (Quat.smul c q) = quatToMatrix q := by
  have hcn : (Quat.smul c q).normSq ≠ 0 := by
    rw [Quat.normSq_smul]; exact mul_ne_zero (pow_ne_zero 2 hc) hq
  ext i j
  fin_cases i <;> fin_cases j <;>
    · simp only [quatToMatrix, fin3_mk_two, Fin.zero_eta, Fin.mk_one,
        Fin.succ_zero_eq_one, Matrix.cons_val', Matrix.cons_val_zero,
        Matrix.cons_val_one, Matrix.cons_val_two, Matrix.head_cons, Matrix.vecHead,
        Matrix.vecTail, Matrix.empty_val', Matrix.cons_val_fin_one,
        Matrix.head_fin_const, Matrix.of_apply, Function.comp_apply]
      rw [div_eq_div_iff hcn hq]
      simp only [Quat.normSq_smul, Quat.normSq, Quat.smul]
      ring

theorem quatToMatrix_orthogonal (q : Quat) (hq : q.normSq ≠ 0) :
    (quatToMatrix q).transpose * quatToMatrix q = 1 := by
  have h2 : q.normSq * q.normSq ≠ 0 := mul_ne_zero hq hq
  ext i j
  rw [Matrix.mul_apply]
  fin_cases i <;> fin_cases j <;>
    · simp only [quatToMatrix, Fin.sum_univ_three, Matrix.transpose_apply,
        fin3_mk_two, Fin.zero_eta, Fin.mk_one, Fin.succ_zero_eq_one,
        Matrix.cons_val', Matrix.cons_val_zero, Matrix.cons_val_one,
        Matrix.cons_val_two, Matrix.head_cons, Matrix.vecHead, Matrix.vecTail,
        Matrix.empty_val', Matrix.cons_val_fin_one, Matrix.head_fin_const,
        Matrix.of_apply, Function.comp_apply]
      first
      | rw [Matrix.one_apply_eq]
      | rw [Matrix.one_apply_ne (by decide)]
      simp only [div_mul_div_comm, div_add_div_same]
      rw [div_eq_iff h2]
      simp only [Quat.normSq]
      ring

theorem quatToMatrix_det (q : Quat) (hq : q.normSq ≠ 0) :
    (quatToMatrix q).det = 1 := by
  have h3 : q.normSq * q.normSq * q.normSq ≠ 0 := mul_ne_zero (mul_ne_zero hq hq) hq
  rw [Matrix.det_fin_three]
  simp only [quatToMatrix, fin3_mk_two, Fin.zero_eta, Fin.mk_one,
    Fin.succ_zero_eq_one, Matrix.cons_val', Matrix.cons_val_zero,
    Matrix.cons_val_one, Matrix.cons_val_two, Matrix.head_cons, Matrix.vecHead,
    Matrix.vecTail, Matrix.empty_val', Matrix.cons_val_fin_one,
    Matrix.head_fin_const, Matrix.of_apply, Function.comp_apply]
  simp only [div_mul_div_comm, div_add_div_same, div_sub_div_same]
  rw [div_eq_iff h3]
  simp only [Quat.normSq]
  ring


theorem Quat.smul_smul (a b : ℝ) (q : Quat) :
    Quat.smul a (Quat.smul b q) = Quat.smul (a * b) q := by
  simp only [Quat.smul, Quat.mk.injEq]
  refine ⟨by ring, by ring, by ring, by ring⟩

theorem Quat.one_smul (q : Quat) : Quat.smul 1 q = q := by
  simp only [Quat.smul, one_mul]

theorem Quat.neg_eq_smul (q : Quat) : q.neg = Quat.smul (-1) q := by
  simp only [Quat.neg, Quat.smul, Quat.mk.injEq]
  refine ⟨by ring, by ring, by ring, by ring⟩

theorem Quat.dot_neg_right (p q : Quat) : p.dot q.neg = -(p.dot q) := by
  simp only [Quat.dot, Quat.neg]
  ring

theorem Quat.normSq_neg (q : Quat) : q.neg.normSq = q.normSq := by
  simp only [Quat.neg, Quat.normSq]
  ring

theorem Quat.normSq_add_smul (a b : Quat) (t : ℝ) :
    (Quat.add (Quat.smul (1 - t) a) (Quat.smul t b)).normSq =
      (1 - t) ^ 2 * a.normSq + t ^ 2 * b.normSq + 2 * (1 - t) * t * a.dot b := by
  simp only [Quat.add, Quat.smul, Quat.normSq, Quat.dot]
  ring

theorem normalize_smul (c : ℝ) (u : Quat) (hu : u.normSq = 1) (hc : c ≠ 0) :
    ∃ s : ℝ, (s = 1 ∨ s = -1) ∧
      Quat.smul (1 / (Quat.smul c u).norm) (Quat.smul c u) = Quat.smul s u := by
  have hns : (Quat.smul c u).normSq = c ^ 2 := by rw [Quat.normSq_smul, hu, mul_one]
  have hnorm : (Quat.smul c u).norm = |c| := by
    unfold Quat.norm
    rw [hns, Real.sqrt_sq_eq_abs]
  refine ⟨c / |c|, ?_, ?_⟩
  · rcases lt_or_gt_of_ne hc with h | h
    · right
      rw [abs_of_neg h]
      field_simp
    · left
      rw [abs_of_pos h]
      field_simp
  · rw [hnorm, Quat.smul_smul]
    have h1 : 1 / |c| * c = c / |c| := by ring
    rw [h1]

theorem sq_pos_of_ne (a : ℝ) (h : a ≠ 0) : 0 < a ^ 2 := by positivity

theorem ne_of_sq_pos (a : ℝ) (h : 0 < a ^ 2) : a ≠ 0 := by
  intro h0
  rw [h0] at h
  norm_num at h

theorem matrixToQuat_quatToMatrix (u : Quat) (hu : u.normSq = 1) :
    ∃ s : ℝ, (s = 1 ∨ s = -1) ∧ matrixToQuat (quatToMatrix u) = Quat.smul s u := by
  have hu' : u.x ^ 2 + u.y ^ 2 + u.z ^ 2 + u.w ^ 2 = 1 := hu
  have hm00 : quatToMatrix u 0 0 = 1 - 2 * (u.y ^ 2 + u.z ^ 2) := by
    simp only [quatToMatrix, Matrix.cons_val', Matrix.cons_val_zero, Matrix.cons_val_one,
      Matrix.cons_val_two, Matrix.head_cons, Matrix.vecHead, Matrix.vecTail,
      Matrix.empty_val', Matrix.cons_val_fin_one, Matrix.head_fin_const,
      Matrix.of_apply, Function.comp_apply, Fin.succ_zero_eq_one]
    rw [hu]; ring
  have hm01 : quatToMatrix u 0 1 = 2 * (u.x * u.y - u.z * u.w) := by
    simp only [quatToMatrix, Matrix.cons_val', Matrix.cons_val_zero, Matrix.cons_val_one,
      Matrix.cons_val_two, Matrix.head_cons, Matrix.vecHead, Matrix.vecTail,
      Matrix.empty_val', Matrix.cons_val_fin_one, Matrix.head_fin_const,
      Matrix.of_apply, Function.comp_apply, Fin.succ_zero_eq_one]
    rw [hu]; ring
  have hm02 : quatToMatrix u 0 2 = 2 * (u.x * u.z + u.y * u.w) := by
    simp only [quatToMatrix, Matrix.cons_val', Matrix.cons_val_zero, Matrix.cons_val_one,
      Matrix.cons_val_two, Matrix.head_cons, Matrix.vecHead, Matrix.vecTail,
      Matrix.empty_val', Matrix.cons_val_fin_one, Matrix.head_fin_const,
      Matrix.of_apply, Function.comp_apply, Fin.succ_zero_eq_one]
    rw [hu]; ring
  have hm10 : quatToMatrix u 1 0 = 2 * (u.x * u.y + u.z * u.w) := by
    simp only [quatToMatrix, Matrix.cons_val', Matrix.cons_val_zero, Matrix.cons_val_one,
      Matrix.cons_val_two, Matrix.head_cons, Matrix.vecHead, Matrix.vecTail,
      Matrix.empty_val', Matrix.cons_val_fin_one, Matrix.head_fin_const,
      Matrix.of_apply, Function.comp_apply, Fin.succ_zero_eq_one]
    rw [hu]; ring
  have hm11 : quatToMatrix u 1 1 = 1 - 2 * (u.x ^ 2 + u.z ^ 2) := by
    simp only [quatToMatrix, Matrix.cons_val', Matrix.cons_val_zero, Matrix.cons_val_one,
      Matrix.cons_val_two, Matrix.head_cons, Matrix.vecHead, Matrix.vecTail,
      Matrix.empty_val', Matrix.cons_val_fin_one, Matrix.head_fin_const,
      Matrix.of_apply, Function.comp_apply, Fin.succ_zero_eq_one]
    rw [hu]; ring
  have hm12 : quatToMatrix u 1 2 = 2 * (u.y * u.z - u.x * u.w) := by
    simp only [quatToMatrix, Matrix.cons_val', Matrix.cons_val_zero, Matrix.cons_val_one,
      Matrix.cons_val_two, Matrix.head_cons, Matrix.vecHead, Matrix.vecTail,
      Matrix.empty_val', Matrix.cons_val_fin_one, Matrix.head_fin_const,
      Matrix.of_apply, Function.comp_apply, Fin.succ_zero_eq_one]
    rw [hu]; ring
  have hm20 : quatToMatrix u 2 0 = 2 * (u.x * u.z - u.y * u.w) := by
    simp only [quatToMatrix, Matrix.cons_val', Matrix.cons_val_zero, Matrix.cons_val_one,
      Matrix.cons_val_two, Matrix.head_cons, Matrix.vecHead, Matrix.vecTail,
      Matrix.empty_val', Matrix.cons_val_fin_one, Matrix.head_fin_const,
      Matrix.of_apply, Function.comp_apply, Fin.succ_zero_eq_one]
    rw [hu]; ring
  have hm21 : quatToMatrix u 2 1 = 2 * (u.y * u.z + u.x * u.w) := by
    simp only [quatToMatrix, Matrix.cons_val', Matrix.cons_val_zero, Matrix.cons_val_one,
      Matrix.cons_val_two, Matrix.head_cons, Matrix.vecHead, Matrix.vecTail,
      Matrix.empty_val', Matrix.cons_val_fin_one, Matrix.head_fin_const,
      Matrix.of_apply, Function.comp_apply, Fin.succ_zero_eq_one]
    rw [hu]; ring
  have hm22 : quatToMatrix u 2 2 = 1 - 2 * (u.x ^ 2 + u.y ^ 2) := by
    simp only [quatToMatrix, Matrix.cons_val', Matrix.cons_val_zero, Matrix.cons_val_one,
      Matrix.cons_val_two, Matrix.head_cons, Matrix.vecHead, Matrix.vecTail,
      Matrix.empty_val', Matrix.cons_val_fin_one, Matrix.head_fin_const,
      Matrix.of_apply, Function.comp_apply, Fin.succ_zero_eq_one]
    rw [hu]; ring
  simp only [matrixToQuat, hm00, hm01, hm02, hm10, hm11, hm12, hm20, hm21, hm22]
  by_cases hc1 : 1 - 2 * (u.y ^ 2 + u.z ^ 2) ≥ 1 - 2 * (u.x ^ 2 + u.z ^ 2) ∧
      1 - 2 * (u.y ^ 2 + u.z ^ 2) ≥ 1 - 2 * (u.x ^ 2 + u.y ^ 2) ∧
      1 - 2 * (u.y ^ 2 + u.z ^ 2) ≥
        1 - 2 * (u.y ^ 2 + u.z ^ 2) + (1 - 2 * (u.x ^ 2 + u.z ^ 2)) +
          (1 - 2 * (u.x ^ 2 + u.y ^ 2))
  · rw [if_pos hc1]
    obtain ⟨g1, g2, g3⟩ := hc1
    have hx : 0 < u.x ^ 2 := by nlinarith [sq_nonneg u.y, sq_nonneg u.z, sq_nonneg u.w]
    have hq4 : (⟨1 - (1 - 2 * (u.y ^ 2 + u.z ^ 2) + (1 - 2 * (u.x ^ 2 + u.z ^ 2)) +
        (1 - 2 * (u.x ^ 2 + u.y ^ 2))) + 2 * (1 - 2 * (u.y ^ 2 + u.z ^ 2)),
        2 * (u.x * u.y + u.z * u.w) + 2 * (u.x * u.y - u.z * u.w),
        2 * (u.x * u.z - u.y * u.w) + 2 * (u.x * u.z + u.y * u.w),
        2 * (u.y * u.z + u.x * u.w) - 2 * (u.y * u.z - u.x * u.w)⟩ : Quat) =
        Quat.smul (4 * u.x) u := by
      simp only [Quat.smul, Quat.mk.injEq]
      refine ⟨by ring, by ring, by ring, by ring⟩
    rw [hq4]
    exact normalize_smul (4 * u.x) u hu (mul_ne_zero (by norm_num) (ne_of_sq_pos u.x hx))
  · rw [if_neg hc1]
    by_cases hc2 : 1 - 2 * (u.x ^ 2 + u.z ^ 2) ≥ 1 - 2 * (u.x ^ 2 + u.y ^ 2) ∧
        1 - 2 * (u.x ^ 2 + u.z ^ 2) ≥
          1 - 2 * (u.y ^ 2 + u.z ^ 2) + (1 - 2 * (u.x ^ 2 + u.z ^ 2)) +
            (1 - 2 * (u.x ^ 2 + u.y ^ 2))
    · rw [if_pos hc2]
      obtain ⟨g1, g2⟩ := hc2
      have hy : 0 < u.y ^ 2 := by
        rcases not_and_or.mp hc1 with h | h'
        · nlinarith [sq_nonneg u.x, lt_of_not_ge h]
        · rcases not_and_or.mp h' with h | h
          · nlinarith [sq_nonneg u.x, lt_of_not_ge h]
          · nlinarith [sq_nonneg u.x, lt_of_not_ge h]
      have hq4 : (⟨2 * (u.x * u.y - u.z * u.w) + 2 * (u.x * u.y + u.z * u.w),
          1 - (1 - 2 * (u.y ^ 2 + u.z ^ 2) + (1 - 2 * (u.x ^ 2 + u.z ^ 2)) +
            (1 - 2 * (u.x ^ 2 + u.y ^ 2))) + 2 * (1 - 2 * (u.x ^ 2 + u.z ^ 2)),
          2 * (u.y * u.z + u.x * u.w) + 2 * (u.y * u.z - u.x * u.w),
          2 * (u.x * u.z + u.y * u.w) - 2 * (u.x * u.z - u.y * u.w)⟩ : Quat) =
          Quat.smul (4 * u.y) u := by
        simp only [Quat.smul, Quat.mk.injEq]
        refine ⟨by ring, by ring, by ring, by ring⟩
      rw [hq4]
      exact normalize_smul (4 * u.y) u hu (mul_ne_zero (by norm_num) (ne_of_sq_pos u.y hy))
    · rw [if_neg hc2]
      by_cases hc3 : 1 - 2 * (u.x ^ 2 + u.y ^ 2) ≥
          1 - 2 * (u.y ^ 2 + u.z ^ 2) + (1 - 2 * (u.x ^ 2 + u.z ^ 2)) +
            (1 - 2 * (u.x ^ 2 + u.y ^ 2))
      · rw [if_pos hc3]
        have hz : 0 < u.z ^ 2 := by
          rcases not_and_or.mp hc2 with h | h
          · nlinarith [sq_nonneg u.y, lt_of_not_ge h]
          · nlinarith [sq_nonneg u.y, lt_of_not_ge h]
        have hq4 : (⟨2 * (u.x * u.z + u.y * u.w) + 2 * (u.x * u.z - u.y * u.w),
            2 * (u.y * u.z - u.x * u.w) + 2 * (u.y * u.z + u.x * u.w),
            1 - (1 - 2 * (u.y ^ 2 + u.z ^ 2) + (1 - 2 * (u.x ^ 2 + u.z ^ 2)) +
              (1 - 2 * (u.x ^ 2 + u.y ^ 2))) + 2 * (1 - 2 * (u.x ^ 2 + u.y ^ 2)),
            2 * (u.x * u.y + u.z * u.w) - 2 * (u.x * u.y - u.z * u.w)⟩ : Quat) =
            Quat.smul (4 * u.z) u := by
          simp only [Quat.smul, Quat.mk.injEq]
          refine ⟨by ring, by ring, by ring, by ring⟩
        rw [hq4]
        exact normalize_smul (4 * u.z) u hu (mul_ne_zero (by norm_num) (ne_of_sq_pos u.z hz))
      · rw [if_neg hc3]
        have hw : 0 < u.w ^ 2 := by
          nlinarith [sq_nonneg u.z, lt_of_not_ge hc3]
        have hq4 : (⟨2 * (u.y * u.z + u.x * u.w) - 2 * (u.y * u.z - u.x * u.w),
            2 * (u.x * u.z + u.y * u.w) - 2 * (u.x * u.z - u.y * u.w),
            2 * (u.x * u.y + u.z * u.w) - 2 * (u.x * u.y - u.z * u.w),
            1 + (1 - 2 * (u.y ^ 2 + u.z ^ 2) + (1 - 2 * (u.x ^ 2 + u.z ^ 2)) +
              (1 - 2 * (u.x ^ 2 + u.y ^ 2)))⟩ : Quat) =
            Quat.smul (4 * u.w) u := by
          simp only [Quat.smul, Quat.mk.injEq]
          refine ⟨by ring, by ring, by ring, by linear_combination (-4 : ℝ) * hu'⟩
        rw [hq4]
        exact normalize_smul (4 * u.w) u hu (mul_ne_zero (by norm_num) (ne_of_sq_pos u.w hw))


theorem rotBlock_assembleRigid (r : Matrix (Fin 3) (Fin 3) ℝ) (t : Fin 3 → ℝ) :
    rotBlock (assembleRigid r t) = r := by
  ext i j
  simp only [rotBlock, assembleRigid, Matrix.of_apply]
  rw [dif_pos (show ((i.castSucc : Fin 4) : ℕ) < 3 by rw [Fin.coe_castSucc]; exact i.isLt),
    dif_pos (show ((j.castSucc : Fin 4) : ℕ) < 3 by rw [Fin.coe_castSucc]; exact j.isLt)]
  congr 1

theorem transOf_assembleRigid (r : Matrix (Fin 3) (Fin 3) ℝ) (t : Fin 3 → ℝ) :
    transOf (assembleRigid r t) = t := by
  funext i
  simp only [transOf, assembleRigid, Matrix.of_apply]
  rw [dif_pos (show ((i.castSucc : Fin 4) : ℕ) < 3 by rw [Fin.coe_castSucc]; exact i.isLt)]
  rw [dif_neg (show ¬(((3 : Fin 4) : ℕ) < 3) by decide)]
  congr 1

theorem assembleRigid_bottom (r : Matrix (Fin 3) (Fin 3) ℝ) (t : Fin 3 → ℝ) (j : Fin 4) :
    assembleRigid r t 3 j = if (j : ℕ) < 3 then 0 else 1 := by
  simp only [assembleRigid, Matrix.of_apply]
  rw [dif_neg (show ¬(((3 : Fin 4) : ℕ) < 3) by decide)]

theorem Quat.add_smul_zero (a b : Quat) :
    Quat.add (Quat.smul (1 - (0 : ℝ)) a) (Quat.smul 0 b) = a := by
  cases a with
  | mk ax ay az aw =>
    simp only [Quat.add, Quat.smul, Quat.mk.injEq]
    refine ⟨by ring, by ring, by ring, by ring⟩

theorem Quat.add_smul_one (a b : Quat) :
    Quat.add (Quat.smul (1 - (1 : ℝ)) a) (Quat.smul 1 b) = b := by
  cases b with
  | mk bx qy bz bw =>
    simp only [Quat.add, Quat.smul, Quat.mk.injEq]
    refine ⟨by ring, by ring, by ring, by ring⟩

theorem normalizeQuatToMatrix (q : Quat) (hq : q.normSq = 1) :
    quatToMatrix (Quat.smul (1 / q.norm) q) = quatToMatrix q := by
  have hnorm : q.norm = 1 := by
    unfold Quat.norm
    rw [hq, Real.sqrt_one]
  rw [hnorm]
  norm_num [Quat.one_smul]

theorem normalize_unit (q : Quat) (h : 0 < q.normSq) :
    (Quat.smul (1 / q.norm) q).normSq = 1 := by
  rw [Quat.normSq_smul]
  unfold Quat.norm
  rw [div_pow, one_pow, Real.sq_sqrt h.le, one_div, inv_mul_cancel₀ (ne_of_gt h)]

theorem interpolateMatrix_zero (m1 m2 : Matrix (Fin 4) (Fin 4) ℝ) (h1 : IsRigid m1) :
    interpolateMatrix m1 m2 0 = m1 := by
  obtain ⟨⟨u1, hu1, hr1⟩, hasm⟩ := h1
  obtain ⟨s1, hs1, hq1⟩ := matrixToQuat_quatToMatrix u1 hu1
  have hQ1 : matrixToQuat (rotBlock m1) = Quat.smul s1 u1 := by rw [hr1]; exact hq1
  have hs1sq : s1 ^ 2 = 1 := by rcases hs1 with h | h <;> rw [h] <;> norm_num
  have hns : (Quat.smul s1 u1).normSq = 1 := by
    rw [Quat.normSq_smul, hu1, mul_one, hs1sq]
  have hs1ne : s1 ≠ 0 := by rcases hs1 with h | h <;> rw [h] <;> norm_num
  simp only [interpolateMatrix]
  rw [hQ1, Quat.add_smul_zero]
  rw [normalizeQuatToMatrix (Quat.smul s1 u1) hns]
  rw [quatToMatrix_smul s1 u1 hs1ne (by rw [hu1]; norm_num)]
  rw [← hr1]
  have ht : (fun i => (1 - (0 : ℝ)) * transOf m1 i + 0 * transOf m2 i) = transOf m1 := by
    funext i
    ring
  rw [ht]
  exact hasm.symm

theorem interpolateMatrix_one (m1 m2 : Matrix (Fin 4) (Fin 4) ℝ) (h2 : IsRigid m2) :
    interpolateMatrix m1 m2 1 = m2 := by
  obtain ⟨⟨u2, hu2, hr2⟩, hasm⟩ := h2
  obtain ⟨s2, hs2, hq2⟩ := matrixToQuat_quatToMatrix u2 hu2
  have hQ2 : matrixToQuat (rotBlock m2) = Quat.smul s2 u2 := by rw [hr2]; exact hq2
  have hs2sq : s2 ^ 2 = 1 := by rcases hs2 with h | h <;> rw [h] <;> norm_num
  have hns : (Quat.smul s2 u2).normSq = 1 := by
    rw [Quat.normSq_smul, hu2, mul_one, hs2sq]
  have hs2ne : s2 ≠ 0 := by rcases hs2 with h | h <;> rw [h] <;> norm_num
  have hu2ne : u2.normSq ≠ 0 := by rw [hu2]; norm_num
  have ht : (fun i => (1 - (1 : ℝ)) * transOf m1 i + 1 * transOf m2 i) = transOf m2 := by
    funext i
    ring
  simp only [interpolateMatrix]
  rw [hQ2, Quat.add_smul_one, ht]
  by_cases hd : (matrixToQuat (rotBlock m1)).dot (Quat.smul s2 u2) < 0
  · rw [if_pos hd]
    have hnsn : (Quat.smul s2 u2).neg.normSq = 1 := by rw [Quat.normSq_neg, hns]
    rw [normalizeQuatToMatrix ((Quat.smul s2 u2).neg) hnsn]
    rw [Quat.neg_eq_smul, Quat.smul_smul]
    rw [quatToMatrix_smul (-1 * s2) u2 (mul_ne_zero (by norm_num) hs2ne) hu2ne]
    rw [← hr2]
    exact hasm.symm
  · rw [if_neg hd]
    rw [normalizeQuatToMatrix (Quat.smul s2 u2) hns]
    rw [quatToMatrix_smul s2 u2 hs2ne hu2ne]
    rw [← hr2]
    exact hasm.symm

theorem interpolateMatrix_isRigid (m1 m2 : Matrix (Fin 4) (Fin 4) ℝ) (alpha : ℝ)
    (h1 : IsRigid m1) (h2 : IsRigid m2) (h0 : 0 ≤ alpha) (hle : alpha ≤ 1) :
    ∃ qf : Quat, qf.normSq = 1 ∧
      interpolateMatrix m1 m2 alpha =
        assembleRigid (quatToMatrix qf)
          (fun i => (1 - alpha) * transOf m1 i + alpha * transOf m2 i) := by
  obtain ⟨⟨u1, hu1, hr1⟩, _⟩ := h1
  obtain ⟨⟨u2, hu2, hr2⟩, _⟩ := h2
  obtain ⟨s1, hs1, hq1⟩ := matrixToQuat_quatToMatrix u1 hu1
  obtain ⟨s2, hs2, hq2⟩ := matrixToQuat_quatToMatrix u2 hu2
  have hns1 : (matrixToQuat (rotBlock m1)).normSq = 1 := by
    rw [hr1, hq1, Quat.normSq_smul, hu1, mul_one]
    rcases hs1 with h | h <;> rw [h] <;> norm_num
  have hns2 : (matrixToQuat (rotBlock m2)).normSq = 1 := by
    rw [hr2, hq2, Quat.normSq_smul, hu2, mul_one]
    rcases hs2 with h | h <;> rw [h] <;> norm_num
  set q1 := matrixToQuat (rotBlock m1) with hq1d
  set q2 := matrixToQuat (rotBlock m2) with hq2d
  set q2' := if q1.dot q2 < 0 then q2.neg else q2 with hq2'd
  have hns2' : q2'.normSq = 1 := by
    rw [hq2'd]
    split
    · rw [Quat.normSq_neg]
      exact hns2
    · exact hns2
  have hdot : 0 ≤ q1.dot q2' := by
    rw [hq2'd]
    split
    · next h =>
      rw [Quat.dot_neg_right]
      linarith
    · next h => exact not_lt.mp h
  set qi := Quat.add (Quat.smul (1 - alpha) q1) (Quat.smul alpha q2') with hqid
  have hnsi : qi.normSq =
      (1 - alpha) ^ 2 + alpha ^ 2 + 2 * (1 - alpha) * alpha * (q1.dot q2') := by
    rw [hqid, Quat.normSq_add_smul, hns1, hns2']
    ring
  have hpos : 0 < qi.normSq := by
    rw [hnsi]
    nlinarith [mul_nonneg (mul_nonneg
      (show (0:ℝ) ≤ 2 * (1 - alpha) by linarith) h0) hdot, sq_nonneg (1 - 2 * alpha)]
  refine ⟨Quat.smul (1 / qi.norm) qi, normalize_unit qi hpos, ?_⟩
  simp only [interpolateMatrix]

theorem matrixToQuat_id : matrixToQuat (1 : Matrix (Fin 3) (Fin 3) ℝ) = ⟨0, 0, 0, 1⟩ := by
  have e00 : (1 : Matrix (Fin 3) (Fin 3) ℝ) 0 0 = 1 := Matrix.one_apply_eq 0
  have e11 : (1 : Matrix (Fin 3) (Fin 3) ℝ) 1 1 = 1 := Matrix.one_apply_eq 1
  have e22 : (1 : Matrix (Fin 3) (Fin 3) ℝ) 2 2 = 1 := Matrix.one_apply_eq 2
  have e01 : (1 : Matrix (Fin 3) (Fin 3) ℝ) 0 1 = 0 := Matrix.one_apply_ne (by decide)
  have e02 : (1 : Matrix (Fin 3) (Fin 3) ℝ) 0 2 = 0 := Matrix.one_apply_ne (by decide)
  have e10 : (1 : Matrix (Fin 3) (Fin 3) ℝ) 1 0 = 0 := Matrix.one_apply_ne (by decide)
  have e12 : (1 : Matrix (Fin 3) (Fin 3) ℝ) 1 2 = 0 := Matrix.one_apply_ne (by decide)
  have e20 : (1 : Matrix (Fin 3) (Fin 3) ℝ) 2 0 = 0 := Matrix.one_apply_ne (by decide)
  have e21 : (1 : Matrix (Fin 3) (Fin 3) ℝ) 2 1 = 0 := Matrix.one_apply_ne (by decide)
  simp only [matrixToQuat, e00, e01, e02, e10, e11, e12, e20, e21, e22]
  rw [if_neg (by norm_num), if_neg (by norm_num), if_neg (by norm_num)]
  have hq : (⟨(0 : ℝ) - 0, (0 : ℝ) - 0, (0 : ℝ) - 0, 1 + ((1 : ℝ) + 1 + 1)⟩ : Quat) =
      ⟨0, 0, 0, 4⟩ := by
    norm_num
  rw [hq]
  have hnorm : (⟨(0 : ℝ), 0, 0, 4⟩ : Quat).norm = 4 := by
    unfold Quat.norm Quat.normSq
    norm_num
    rw [show (16 : ℝ) = 4 ^ 2 by norm_num, Real.sqrt_sq (by norm_num)]
  rw [hnorm]
  simp only [Quat.smul, Quat.mk.injEq]
  norm_num

theorem matrixToQuat_R270 :
    matrixToQuat !![0, 1, 0; -1, 0, 0; 0, 0, 1] =
      ⟨0, 0, Real.sqrt 2 / 2, -(Real.sqrt 2 / 2)⟩ := by
  have S2 : Real.sqrt 2 ^ 2 = 2 := Real.sq_sqrt (by norm_num)
  have Spos : 0 < Real.sqrt 2 := Real.sqrt_pos.mpr (by norm_num)
  have e00 : (!![(0 : ℝ), 1, 0; -1, 0, 0; 0, 0, 1]) 0 0 = 0 := rfl
  have e01 : (!![(0 : ℝ), 1, 0; -1, 0, 0; 0, 0, 1]) 0 1 = 1 := rfl
  have e02 : (!![(0 : ℝ), 1, 0; -1, 0, 0; 0, 0, 1]) 0 2 = 0 := rfl
  have e10 : (!![(0 : ℝ), 1, 0; -1, 0, 0; 0, 0, 1]) 1 0 = -1 := rfl
  have e11 : (!![(0 : ℝ), 1, 0; -1, 0, 0; 0, 0, 1]) 1 1 = 0 := rfl
  have e12 : (!![(0 : ℝ), 1, 0; -1, 0, 0; 0, 0, 1]) 1 2 = 0 := rfl
  have e20 : (!![(0 : ℝ), 1, 0; -1, 0, 0; 0, 0, 1]) 2 0 = 0 := rfl
  have e21 : (!![(0 : ℝ), 1, 0; -1, 0, 0; 0, 0, 1]) 2 1 = 0 := rfl
  have e22 : (!![(0 : ℝ), 1, 0; -1, 0, 0; 0, 0, 1]) 2 2 = 1 := rfl
  simp only [matrixToQuat, e00, e01, e02, e10, e11, e12, e20, e21, e22]
  rw [if_neg (by norm_num), if_neg (by norm_num), if_pos (by norm_num)]
  have hq : (⟨(0 : ℝ) + 0, (0 : ℝ) + 0, 1 - ((0 : ℝ) + 0 + 1) + 2 * 1, (-1 : ℝ) - 1⟩ : Quat) =
      ⟨0, 0, 2, -2⟩ := by
    norm_num
  rw [hq]
  have hnorm : (⟨(0 : ℝ), 0, 2, -2⟩ : Quat).norm = 2 * Real.sqrt 2 := by
    unfold Quat.norm Quat.normSq
    norm_num
    rw [show (8 : ℝ) = 2 ^ 2 * 2 by norm_num, Real.sqrt_mul (by positivity),
      Real.sqrt_sq (by norm_num)]
  rw [hnorm]
  simp only [Quat.smul, Quat.mk.injEq]
  have hS : Real.sqrt 2 ≠ 0 := ne_of_gt Spos
  refine ⟨by ring, by ring, ?_, ?_⟩
  · field_simp
    linear_combination (-2 : ℝ) * S2
  · field_simp
    linear_combination (-2 : ℝ) * S2


theorem interpolate_shorter_arc :
    interpolateMatrix (assembleRigid 1 0) (assembleRigid !![0, 1, 0; -1, 0, 0; 0, 0, 1] 0)
        (1 / 2) =
      assembleRigid !![Real.sqrt 2 / 2, Real.sqrt 2 / 2, 0;
        -(Real.sqrt 2 / 2), Real.sqrt 2 / 2, 0; 0, 0, 1] 0 := by
  have S2 : Real.sqrt 2 ^ 2 = 2 := Real.sq_sqrt (by norm_num)
  have Spos : 0 < Real.sqrt 2 := Real.sqrt_pos.mpr (by norm_num)
  simp only [interpolateMatrix, rotBlock_assembleRigid, transOf_assembleRigid]
  rw [matrixToQuat_id, matrixToQuat_R270]
  rw [if_pos (show (⟨0, 0, 0, 1⟩ : Quat).dot
      ⟨0, 0, Real.sqrt 2 / 2, -(Real.sqrt 2 / 2)⟩ < 0 by
    simp only [Quat.dot]
    nlinarith [Spos])]
  have hqi : Quat.add (Quat.smul (1 - 1 / 2) ⟨0, 0, 0, 1⟩)
      (Quat.smul (1 / 2) (Quat.neg ⟨0, 0, Real.sqrt 2 / 2, -(Real.sqrt 2 / 2)⟩)) =
      ⟨0, 0, -(Real.sqrt 2 / 4), 1 / 2 + Real.sqrt 2 / 4⟩ := by
    simp only [Quat.add, Quat.smul, Quat.neg, Quat.mk.injEq]
    refine ⟨by ring, by ring, by ring, by ring⟩
  rw [hqi]
  have hns : (⟨(0 : ℝ), 0, -(Real.sqrt 2 / 4), 1 / 2 + Real.sqrt 2 / 4⟩ : Quat).normSq =
      (2 + Real.sqrt 2) / 4 := by
    unfold Quat.normSq
    linear_combination (1 / 8 : ℝ) * S2
  have hnspos :
      0 < (⟨(0 : ℝ), 0, -(Real.sqrt 2 / 4), 1 / 2 + Real.sqrt 2 / 4⟩ : Quat).normSq := by
    rw [hns]
    positivity
  have hnormpos :
      0 < (⟨(0 : ℝ), 0, -(Real.sqrt 2 / 4), 1 / 2 + Real.sqrt 2 / 4⟩ : Quat).norm := by
    unfold Quat.norm
    exact Real.sqrt_pos.mpr hnspos
  rw [quatToMatrix_smul _ _ (one_div_ne_zero (ne_of_gt hnormpos)) (ne_of_gt hnspos)]
  have hden : ((2 + Real.sqrt 2) / 4 : ℝ) ≠ 0 := by positivity
  have hrot : quatToMatrix ⟨(0 : ℝ), 0, -(Real.sqrt 2 / 4), 1 / 2 + Real.sqrt 2 / 4⟩ =
      !![Real.sqrt 2 / 2, Real.sqrt 2 / 2, 0;
        -(Real.sqrt 2 / 2), Real.sqrt 2 / 2, 0; 0, 0, 1] := by
    ext i j
    fin_cases i <;> fin_cases j <;>
      · simp only [quatToMatrix, fin3_mk_two, Fin.zero_eta, Fin.mk_one,
          Fin.succ_zero_eq_one, Matrix.cons_val', Matrix.cons_val_zero,
          Matrix.cons_val_one, Matrix.cons_val_two, Matrix.head_cons, Matrix.vecHead,
          Matrix.vecTail, Matrix.empty_val', Matrix.cons_val_fin_one,
          Matrix.head_fin_const, Matrix.of_apply, Function.comp_apply]
        rw [hns, div_eq_iff hden]
        first
        | ring1
        | linear_combination (-(1 : ℝ) / 4) * S2
  have htr : (fun i => (1 - 1 / 2) * (0 : Fin 3 → ℝ) i + 1 / 2 * (0 : Fin 3 → ℝ) i) =
      (0 : Fin 3 → ℝ) := by
    funext i
    simp only [Pi.zero_apply]
    ring
  rw [hrot, htr]


theorem quatToMatrix_unitQuat : quatToMatrix ⟨0, 0, 0, 1⟩ = (1 : Matrix (Fin 3) (Fin 3) ℝ) := by
  ext i j
  fin_cases i <;> fin_cases j <;>
    · simp only [quatToMatrix, Quat.normSq, fin3_mk_two, Fin.zero_eta, Fin.mk_one,
        Fin.succ_zero_eq_one, Matrix.cons_val', Matrix.cons_val_zero,
        Matrix.cons_val_one, Matrix.cons_val_two, Matrix.head_cons, Matrix.vecHead,
        Matrix.vecTail, Matrix.empty_val', Matrix.cons_val_fin_one,
        Matrix.head_fin_const, Matrix.of_apply, Function.comp_apply, Matrix.one_apply]
      first
      | (norm_num
         rw [if_neg (by decide)])
      | norm_num

theorem isRigid_id : IsRigid (assembleRigid 1 0) := by
  constructor
  · refine ⟨⟨0, 0, 0, 1⟩, ?_, ?_⟩
    · unfold Quat.normSq
      norm_num
    · rw [rotBlock_assembleRigid, quatToMatrix_unitQuat]
  · rw [rotBlock_assembleRigid, transOf_assembleRigid]


/-- **C4**: over the real-number idealization of `MessageConverter.interpolateMatrix`,
for all rigid-transform inputs the interpolation reproduces the start matrix exactly at
`alpha = 0` and the end matrix exactly at `alpha = 1`; for every `alpha` in `[0, 1]` the
result is a valid rigid transform (its 3x3 rotation block is orthonormal with
determinant 1, and its bottom row is `[0, 0, 0, 1]`); and the rotation follows the
shorter angular arc: a 270-degree separation about z interpolates through -45 degrees
at the midpoint, not +135 degrees. -/
theorem interpolateMatrix_rigid_spec (m1 m2 : Matrix (Fin 4) (Fin 4) ℝ) (alpha : ℝ)
    (h1 : IsRigid m1) (h2 : IsRigid m2) (h0 : 0 ≤ alpha) (hle : alpha ≤ 1) :
    interpolateMatrix m1 m2 0 = m1 ∧
    interpolateMatrix m1 m2 1 = m2 ∧
    IsRigid (interpolateMatrix m1 m2 alpha) ∧
    (rotBlock (interpolateMatrix m1 m2 alpha)).transpose *
        rotBlock (interpolateMatrix m1 m2 alpha) = 1 ∧
    (rotBlock (interpolateMatrix m1 m2 alpha)).det = 1 ∧
    (∀ j, interpolateMatrix m1 m2 alpha 3 j = if (j : ℕ) < 3 then 0 else 1) ∧
    interpolateMatrix (assembleRigid 1 0) (assembleRigid !![0, 1, 0; -1, 0, 0; 0, 0, 1] 0)
        (1 / 2) =
      assembleRigid !![Real.sqrt 2 / 2, Real.sqrt 2 / 2, 0;
        -(Real.sqrt 2 / 2), Real.sqrt 2 / 2, 0; 0, 0, 1] 0 ∧
    interpolateMatrix (assembleRigid 1 0) (assembleRigid !![0, 1, 0; -1, 0, 0; 0, 0, 1] 0)
        (1 / 2) ≠
      assembleRigid !![-(Real.sqrt 2 / 2), -(Real.sqrt 2 / 2), 0;
        Real.sqrt 2 / 2, -(Real.sqrt 2 / 2), 0; 0, 0, 1] 0 := by
  obtain ⟨qf, hqf, hform⟩ := interpolateMatrix_isRigid m1 m2 alpha h1 h2 h0 hle
  have hqfne : qf.normSq ≠ 0 := by rw [hqf]; norm_num
  refine ⟨interpolateMatrix_zero m1 m2 h1, interpolateMatrix_one m1 m2 h2, ?_, ?_, ?_, ?_,
    interpolate_shorter_arc, ?_⟩
  · rw [hform]
    exact ⟨⟨qf, hqf, rotBlock_assembleRigid _ _⟩,
      by rw [rotBlock_assembleRigid, transOf_assembleRigid]⟩
  · rw [hform, rotBlock_assembleRigid]
    exact quatToMatrix_orthogonal qf hqfne
  · rw [hform, rotBlock_assembleRigid]
    exact quatToMatrix_det qf hqfne
  · intro j
    rw [hform]
    exact assembleRigid_bottom _ _ j
  · rw [interpolate_shorter_arc]
    intro h
    have h00 : Real.sqrt 2 / 2 = -(Real.sqrt 2 / 2) := congrFun (congrFun h 0) 0
    have hpos : 0 < Real.sqrt 2 := Real.sqrt_pos.mpr (by norm_num)
    linarith

/-- Witness for the C4 theorem at the identity rigid transform and `alpha = 0`. -/
theorem interpolateMatrix_rigid_spec_witness :
    (IsRigid (assembleRigid 1 0) ∧ (0 : ℝ) ≤ 0 ∧ (0 : ℝ) ≤ 1) ∧
    (interpolateMatrix (assembleRigid 1 0) (assembleRigid 1 0) 0 = assembleRigid 1 0 ∧
    interpolateMatrix (assembleRigid 1 0) (assembleRigid 1 0) 1 = assembleRigid 1 0 ∧
    IsRigid (interpolateMatrix (assembleRigid 1 0) (assembleRigid 1 0) 0) ∧
    (rotBlock (interpolateMatrix (assembleRigid 1 0) (assembleRigid 1 0) 0)).transpose *
        rotBlock (interpolateMatrix (assembleRigid 1 0) (assembleRigid 1 0) 0) = 1 ∧
    (rotBlock (interpolateMatrix (assembleRigid 1 0) (assembleRigid 1 0) 0)).det = 1 ∧
    (∀ j, interpolateMatrix (assembleRigid 1 0) (assembleRigid 1 0) 0 3 j =
      if (j : ℕ) < 3 then 0 else 1) ∧
    interpolateMatrix (assembleRigid 1 0) (assembleRigid !![0, 1, 0; -1, 0, 0; 0, 0, 1] 0)
        (1 / 2) =
      assembleRigid !![Real.sqrt 2 / 2, Real.sqrt 2 / 2, 0;
        -(Real.sqrt 2 / 2), Real.sqrt 2 / 2, 0; 0, 0, 1] 0 ∧
    interpolateMatrix (assembleRigid 1 0) (assembleRigid !![0, 1, 0; -1, 0, 0; 0, 0, 1] 0)
        (1 / 2) ≠
      assembleRigid !![-(Real.sqrt 2 / 2), -(Real.sqrt 2 / 2), 0;
        Real.sqrt 2 / 2, -(Real.sqrt 2 / 2), 0; 0, 0, 1] 0) :=
  ⟨⟨isRigid_id, le_refl 0, by norm_num⟩,
    interpolateMatrix_rigid_spec (assembleRigid 1 0) (assembleRigid 1 0) 0
      isRigid_id isRigid_id (le_refl 0) (by norm_num)⟩

end Mcap2Hdf5
